import Mathlib

/-!
# The TPC-C consistency checker (`tpcc/check.go`)

A shallow embedding of `Workloader.Check` and of the four `checkCondition`
functions it drives, together with the relational meaning of the SQL text
they send, and the properties of the checker proved on that embedding.

Conventions of the embedding.

* Go `int` is the 64-bit two's-complement integer: values are `Int`, and every
  addition of the driver is wrapped with `wrap64`.  Go `%` truncates towards
  zero, which is `Int.tmod`; a zero divisor is a run-time fault.
* A Go `error` is a value of `GoError`; each `fmt.Errorf` call of the source
  is one constructor, and `GoError.render` gives back the message text.
* The connection `s.Conn` is an oracle.  Its answer may depend on everything
  that was asked before (this is how a cancelled context, a timeout or a
  transient fault appears), so the functions pass the log of issued queries
  along explicitly.
* The `float64` that `rows.Scan` fills in is the rational number it denotes.
* The outer `for` loop runs on fuel: one unit per evaluation of its guard.
-/

namespace Tpcc

/-! ## Machine integers -/

/-- Two's-complement wrap-around of a 64-bit Go `int`. -/
def wrap64 (x : Int) : Int := (x + 2 ^ 63) % 2 ^ 64 - 2 ^ 63

/-! ## Errors -/

/-- Errors handed out by the query interface (`database/sql`, `context`). -/
inductive ConnError where
  | canceled
  | deadlineExceeded
  | other (msg : String)
  deriving DecidableEq, Repr

/-- The text of an interface error. -/
def ConnError.render : ConnError → String
  | .canceled => "context canceled"
  | .deadlineExceeded => "context deadline exceeded"
  | .other msg => msg

/-- Go `error` values built in `check.go`.

* `driver e`: an error of the query interface, passed on unchanged;
* `exec query cause`: `fmt.Errorf("Exec %s failed %v", query, err)`;
* `nonzero expr warehouse diff`:
  `fmt.Errorf("<expr> in warehouse %d, but got %f", warehouse, diff)`;
* `condition index cause`:
  `fmt.Errorf("check condition %d failed %v", i+1, err)`. -/
inductive GoError where
  | driver (e : ConnError)
  | exec (query : String) (cause : GoError)
  | nonzero (expr : String) (warehouse : Int) (diff : Rat)
  | condition (index : Int) (cause : GoError)
  deriving DecidableEq

/-- The message of an error; `fmtF` is the `%f` verb on the scanned value. -/
def GoError.render (fmtF : Rat → String) : GoError → String
  | .driver e => e.render
  | .exec query cause => "Exec " ++ query ++ " failed " ++ cause.render fmtF
  | .nonzero expr warehouse diff =>
      expr ++ " in warehouse " ++ toString warehouse ++ ", but got " ++ fmtF diff
  | .condition index cause =>
      "check condition " ++ toString index ++ " failed " ++ cause.render fmtF

/-- An error is a consistency violation when a non-zero difference is what
it reports. -/
def GoError.isViolation : GoError → Bool
  | .driver _ => false
  | .exec _ _ => false
  | .nonzero _ _ _ => true
  | .condition _ cause => cause.isViolation

/-! ## The query interface -/

/-- The four SQL statements of `check.go`. -/
inductive QueryId where
  | cond1
  | cond2
  | cond3
  | cond4
  deriving DecidableEq, Repr

/-- The SQL text of each statement, as written in the source. -/
def QueryId.sql : QueryId → String
  | .cond1 => "SELECT sum(d_ytd) - max(w_ytd) diff FROM district, warehouse WHERE d_w_id = w_id AND w_id = ? group by d_w_id"
  | .cond2 => "SELECT POWER((d_next_o_id -1 - max(o_id)), 2) + POWER((d_next_o_id -1 - max(no_o_id)), 2) diff FROM district, orders, new_order WHERE d_w_id = o_w_id AND d_w_id = no_w_id AND d_id = o_d_id AND d_id = no_d_id AND d_w_id = ? group by d_w_id"
  | .cond3 => "SELECT max(no_o_id)-min(no_o_id)+1 - count(*) from new_order where no_w_id= ? group by no_d_id"
  | .cond4 => "SELECT count(*) FROM (SELECT o_d_id, SUM(o_ol_cnt) sm1, MAX(cn) as cn FROM orders,(SELECT ol_d_id, COUNT(*) cn FROM order_line WHERE ol_w_id= ? GROUP BY ol_d_id) ol WHERE o_w_id= ? AND ol_d_id=o_d_id GROUP BY o_d_id) t1 WHERE sm1<>cn"

/-- What `QueryContext` hands back on success: the rows that `rows.Next`
delivers, each with the outcome of `rows.Scan(&diff)` on it, and the value of
`rows.Err()` once `Next` has returned false. -/
structure Rows where
  scans : List (Except ConnError Rat)
  err : Option ConnError

/-- One issued query: the statement and its parameters. -/
abbrev Call := QueryId × List Int

/-- The connection: given the queries issued so far, the answer of
`QueryContext(ctx, query, args...)`. -/
abbrev Conn := List Call → QueryId → List Int → Except ConnError Rows

/-! ## The four checks -/

/-- The `for rows.Next()` loop shared by the four checks, followed by the
`rows.Err()` test. -/
def scanRows (expr : String) (warehouse : Int) :
    List (Except ConnError Rat) → Option ConnError → Option GoError
  | [], final => final.map GoError.driver
  | .error err :: _, _ => some (.driver err)
  | .ok diff :: rest, final =>
      if diff ≠ 0 then some (.nonzero expr warehouse diff)
      else scanRows expr warehouse rest final

/-- `checkCondition1`: W_YTD = sum(D_YTD). -/
def checkCondition1 (conn : Conn) (warehouse : Int) (log : List Call) :
    Option GoError × List Call :=
  let query := QueryId.cond1
  match conn log query [warehouse] with
  | .error err => (some (.exec query.sql (.driver err)), log ++ [(query, [warehouse])])
  | .ok rows =>
      (scanRows "sum(d_ytd) - max(w_ytd) should be 0" warehouse rows.scans rows.err,
        log ++ [(query, [warehouse])])

/-- `checkCondition2`: D_NEXT_O_ID - 1 = max(O_ID) = max(NO_O_ID). -/
def checkCondition2 (conn : Conn) (warehouse : Int) (log : List Call) :
    Option GoError × List Call :=
  let query := QueryId.cond2
  match conn log query [warehouse] with
  | .error err => (some (.exec query.sql (.driver err)), log ++ [(query, [warehouse])])
  | .ok rows =>
      (scanRows
          "POWER((o_nexi_o_id -1 - max(o_id)), 2) + POWER((o_nexi_o_id -1 - max(no_o_id)), 2) != 0"
          warehouse rows.scans rows.err,
        log ++ [(query, [warehouse])])

/-- `checkCondition3`: max(NO_O_ID) - min(NO_O_ID) + 1 = number of rows. -/
def checkCondition3 (conn : Conn) (warehouse : Int) (log : List Call) :
    Option GoError × List Call :=
  let query := QueryId.cond3
  match conn log query [warehouse] with
  | .error err => (some (.exec query.sql (.driver err)), log ++ [(query, [warehouse])])
  | .ok rows =>
      (scanRows "max(no_o_id)-min(no_o_id)+1 - count(*)" warehouse rows.scans rows.err,
        log ++ [(query, [warehouse])])

/-- `checkCondition4`: sum(O_OL_CNT) = number of ORDER-LINE rows.  The
statement takes the warehouse twice; the message is the one of condition 3. -/
def checkCondition4 (conn : Conn) (warehouse : Int) (log : List Call) :
    Option GoError × List Call :=
  let query := QueryId.cond4
  match conn log query [warehouse, warehouse] with
  | .error err =>
      (some (.exec query.sql (.driver err)), log ++ [(query, [warehouse, warehouse])])
  | .ok rows =>
      (scanRows "max(no_o_id)-min(no_o_id)+1 - count(*)" warehouse rows.scans rows.err,
        log ++ [(query, [warehouse, warehouse])])

/-! ## The driver -/

/-- The two configuration fields `Check` reads. -/
structure Config where
  Threads : Int
  Warehouses : Int

/-- How a call of `Check` ends: it returns (nil or an error), it faults on an
integer division by zero, or the fuel of the model is used up. -/
inductive Result where
  | ret (err : Option GoError)
  | divideByZero
  | outOfFuel
  deriving DecidableEq

/-- A check: from the warehouse and the state before to the error and the
state after. -/
abbrev CheckFn (σ : Type) := Int → σ → Option GoError × σ

/-- The inner loop `for i := 0; i < len(checks); i++`, from index `i` on. -/
def runChecks {σ : Type} : List (CheckFn σ) → Int → Int → σ → Option GoError × σ
  | [], _, _, s => (none, s)
  | check :: rest, warehouse, i, s =>
      match check warehouse s with
      | (some err, s1) => (some (.condition (wrap64 (i + 1)) err), s1)
      | (none, s1) => runChecks rest warehouse (wrap64 (i + 1)) s1

/-- The outer loop `for i := ...; i < w.cfg.Warehouses; i += w.cfg.Threads`,
entered with the current value of `i`. -/
def checkLoop {σ : Type} (checks : List (CheckFn σ)) (cfg : Config) :
    Nat → Int → σ → Result × σ
  | 0, _, s => (.outOfFuel, s)
  | fuel + 1, i, s =>
      if i < cfg.Warehouses then
        if cfg.Warehouses = 0 then (.divideByZero, s)
        else
          let warehouse := wrap64 (Int.tmod i cfg.Warehouses + 1)
          match runChecks checks warehouse 0 s with
          | (some err, s1) => (.ret (some err), s1)
          | (none, s1) => checkLoop checks cfg fuel (wrap64 (i + cfg.Threads)) s1
      else (.ret none, s)

/-- The body of `Check` for a given slice of checks. -/
def CheckWith {σ : Type} (checks : List (CheckFn σ)) (cfg : Config) (threadID : Int)
    (fuel : Nat) (s : σ) : Result × σ :=
  if cfg.Threads = 0 then (.divideByZero, s)
  else checkLoop checks cfg fuel (Int.tmod threadID cfg.Threads) s

/-- `Workloader.Check`: the driver over the four checks of the workloader. -/
def Check (conn : Conn) (cfg : Config) (threadID : Int) (fuel : Nat) (log : List Call) :
    Result × List Call :=
  CheckWith [checkCondition1 conn, checkCondition2 conn, checkCondition3 conn,
    checkCondition4 conn] cfg threadID fuel log

/-- The warehouses a run has entered: those it passed to the first check. -/
def visited (log : List Call) : List Int :=
  log.filterMap fun c => if c.1 = QueryId.cond1 then c.2.head? else none

/-- A connection on which nothing is wrong: every query succeeds and every
difference it delivers is zero. -/
def Healthy (conn : Conn) : Prop :=
  ∀ log q args, ∃ rows, conn log q args = .ok rows ∧ rows.err = none ∧
    ∀ r ∈ rows.scans, r = .ok 0

/-- The connection that answers every query with no rows. -/
def emptyConn : Conn := fun _ _ _ => .ok ⟨[], none⟩

/-! ## The assignment of warehouses to a worker, in closed form -/

/-- Number of values `i, i + T, i + 2T, ...` that stay below `W`. -/
def strideCount (W T i : Int) : Nat := ((W - i + T - 1) / T).toNat

/-- The warehouses `i + 1, i + 1 + T, i + 1 + 2T, ...` up to `W`. -/
def stride (W T i : Int) : List Int :=
  (List.range (strideCount W T i)).map fun (k : Nat) => i + 1 + (k : Int) * T

/-- The queries the four checks issue on one warehouse, in order. -/
def callsFor (warehouse : Int) : List Call :=
  [(.cond1, [warehouse]), (.cond2, [warehouse]), (.cond3, [warehouse]),
    (.cond4, [warehouse, warehouse])]

/-- The inner loop run over a given list of warehouses, stopping at the first
error. -/
def runSeq {σ : Type} (checks : List (CheckFn σ)) : List Int → σ → Result × σ
  | [], s => (.ret none, s)
  | warehouse :: rest, s =>
      match runChecks checks warehouse 0 s with
      | (some err, s1) => (.ret (some err), s1)
      | (none, s1) => runSeq checks rest s1

/-! ## Checks as functions, with a trace of their evaluations -/

/-- One evaluation of a check: the warehouse and the 1-based condition. -/
abbrev Eval := Int × Int

/-- The check of condition `k` when it is the function `f k`: it adds its
evaluation to the trace and answers `f k warehouse`. -/
def traced (f : Int → Int → Option GoError) (k : Int) : CheckFn (List Eval) :=
  fun warehouse trace => (f k warehouse, trace ++ [(warehouse, k)])

/-- The slice of four checks given by `f`. -/
def tracedChecks (f : Int → Int → Option GoError) : List (CheckFn (List Eval)) :=
  [traced f 1, traced f 2, traced f 3, traced f 4]

/-- The evaluations of the four conditions on one warehouse, in order. -/
def evalsFor (warehouse : Int) : List Eval :=
  [(warehouse, 1), (warehouse, 2), (warehouse, 3), (warehouse, 4)]

/-! ## The dataset and the meaning of the four statements -/

/-- Modelled from the spec: a row of the warehouse table (its declaration is
not part of `check.go`), with the columns the statements name. -/
structure WarehouseRow where
  w_id : Int
  w_ytd : Rat

/-- Modelled from the spec: a row of the district table, with the columns the
statements name. -/
structure DistrictRow where
  d_id : Int
  d_w_id : Int
  d_ytd : Rat
  d_next_o_id : Int

/-- Modelled from the spec: a row of the orders table, with the columns the
statements name. -/
structure OrdersRow where
  o_id : Int
  o_d_id : Int
  o_w_id : Int
  o_ol_cnt : Int

/-- Modelled from the spec: a row of the new_order table. -/
structure NewOrderRow where
  no_o_id : Int
  no_d_id : Int
  no_w_id : Int

/-- Modelled from the spec: a row of the order_line table, with its key
columns. -/
structure OrderLineRow where
  ol_o_id : Int
  ol_d_id : Int
  ol_w_id : Int
  ol_number : Int

/-- Modelled from the spec: the dataset the checker reads, one list of rows
per table. -/
structure Database where
  warehouse : List WarehouseRow
  district : List DistrictRow
  orders : List OrdersRow
  new_order : List NewOrderRow
  order_line : List OrderLineRow

/-- SQL `max` over the values of a non-empty group. -/
def listMax : List Int → Int
  | [] => 0
  | x :: xs => xs.foldl max x

/-- SQL `min` over the values of a non-empty group. -/
def listMin : List Int → Int
  | [] => 0
  | x :: xs => xs.foldl min x

/-- SQL `max` over the rational values of a non-empty group. -/
def listMaxQ : List Rat → Rat
  | [] => 0
  | x :: xs => xs.foldl max x

/-- The rows of `FROM district, warehouse WHERE d_w_id = w_id AND w_id = ?`. -/
def joinCond1 (db : Database) (w : Int) : List (DistrictRow × WarehouseRow) :=
  db.district.flatMap fun d =>
    (db.warehouse.filter fun x => d.d_w_id = x.w_id ∧ x.w_id = w).map fun x => (d, x)

/-- The statement of condition 1: per group of `d_w_id`,
`sum(d_ytd) - max(w_ytd)`. -/
def sqlCond1 (db : Database) (w : Int) : List Rat :=
  let joined := joinCond1 db w
  (joined.map fun r => r.1.d_w_id).dedup.map fun k =>
    let g := joined.filter fun r => r.1.d_w_id = k
    (g.map fun r => r.1.d_ytd).sum - listMaxQ (g.map fun r => r.2.w_ytd)

/-- The rows of `FROM district, orders, new_order WHERE d_w_id = o_w_id AND
d_w_id = no_w_id AND d_id = o_d_id AND d_id = no_d_id AND d_w_id = ?`. -/
def joinCond2 (db : Database) (w : Int) : List (DistrictRow × OrdersRow × NewOrderRow) :=
  db.district.flatMap fun d =>
    db.orders.flatMap fun o =>
      (db.new_order.filter fun n =>
          d.d_w_id = o.o_w_id ∧ d.d_w_id = n.no_w_id ∧ d.d_id = o.o_d_id ∧
            d.d_id = n.no_d_id ∧ d.d_w_id = w).map fun n => (d, o, n)

/-- The statement of condition 2: per group of `d_w_id`,
`POWER(d_next_o_id - 1 - max(o_id), 2) + POWER(d_next_o_id - 1 - max(no_o_id), 2)`.
The column `d_next_o_id` is not aggregated; its value is taken from the first
row of the group. -/
def sqlCond2 (db : Database) (w : Int) : List Rat :=
  let joined := joinCond2 db w
  (joined.map fun r => r.1.d_w_id).dedup.map fun k =>
    let g := joined.filter fun r => r.1.d_w_id = k
    let d_next_o_id : Int := match g with
      | [] => 0
      | r :: _ => r.1.d_next_o_id
    (((d_next_o_id - 1 - listMax (g.map fun r => r.2.1.o_id)) ^ 2 +
      (d_next_o_id - 1 - listMax (g.map fun r => r.2.2.no_o_id)) ^ 2 : Int) : Rat)

/-- The order ids of the new_order rows of district `d` of warehouse `w`. -/
def newOrderIds (db : Database) (w d : Int) : List Int :=
  (db.new_order.filter fun r => r.no_w_id = w ∧ r.no_d_id = d).map fun r => r.no_o_id

/-- The value `max(no_o_id) - min(no_o_id) + 1 - count(*)` of a group. -/
def delta3 (ids : List Int) : Int :=
  listMax ids - listMin ids + 1 - (ids.length : Int)

/-- The statement of condition 3: per group of `no_d_id` among the rows of the
warehouse, `max(no_o_id) - min(no_o_id) + 1 - count(*)`. -/
def sqlCond3 (db : Database) (w : Int) : List Int :=
  let rows := db.new_order.filter fun r => r.no_w_id = w
  (rows.map fun r => r.no_d_id).dedup.map fun d =>
    delta3 ((rows.filter fun r => r.no_d_id = d).map fun r => r.no_o_id)

/-- The derived table `ol` of condition 4:
`SELECT ol_d_id, COUNT(*) cn FROM order_line WHERE ol_w_id = ? GROUP BY ol_d_id`. -/
def olCounts (db : Database) (a1 : Int) : List (Int × Int) :=
  let lines := db.order_line.filter fun l => l.ol_w_id = a1
  (lines.map fun l => l.ol_d_id).dedup.map fun d =>
    (d, ((lines.filter fun l => l.ol_d_id = d).length : Int))

/-- The derived table `t1` of condition 4: the join of orders with `ol` on
`o_w_id = ? AND ol_d_id = o_d_id`, grouped by `o_d_id`, with
`SUM(o_ol_cnt)` and `MAX(cn)`. -/
def t1Cond4 (db : Database) (a1 a2 : Int) : List (Int × Int × Int) :=
  let joined : List (OrdersRow × Int × Int) := db.orders.flatMap fun o =>
    ((olCounts db a1).filter fun r => o.o_w_id = a2 ∧ r.1 = o.o_d_id).map fun r => (o, r)
  (joined.map fun r => r.1.o_d_id).dedup.map fun d =>
    let g := joined.filter fun r => r.1.o_d_id = d
    (d, (g.map fun r => r.1.o_ol_cnt).sum, listMax (g.map fun r => r.2.2))

/-- The statement of condition 4: `SELECT count(*) FROM t1 WHERE sm1 <> cn`,
always one row. -/
def sqlCond4 (db : Database) (a1 a2 : Int) : List Int :=
  [(((t1Cond4 db a1 a2).filter fun r => r.2.1 ≠ r.2.2).length : Int)]

/-- The connection to a dataset at rest: every statement is answered with its
rows, each scanned without error. -/
def dbConn (db : Database) : Conn := fun _ q args =>
  match q, args with
  | .cond1, [w] => .ok ⟨(sqlCond1 db w).map .ok, none⟩
  | .cond2, [w] => .ok ⟨(sqlCond2 db w).map .ok, none⟩
  | .cond3, [w] => .ok ⟨(sqlCond3 db w).map fun (x : Int) => .ok (x : Rat), none⟩
  | .cond4, [a1, a2] => .ok ⟨(sqlCond4 db a1 a2).map fun (x : Int) => .ok (x : Rat), none⟩
  | _, _ => .error (.other "wrong number of parameters")

/-- The sum of `o_ol_cnt` over the orders of district `d` of warehouse `w`. -/
def declaredLines (db : Database) (w d : Int) : Int :=
  ((db.orders.filter fun o => o.o_w_id = w ∧ o.o_d_id = d).map fun o => o.o_ol_cnt).sum

/-- The number of order_line rows of district `d` of warehouse `w`. -/
def actualLines (db : Database) (w d : Int) : Int :=
  ((db.order_line.filter fun l => l.ol_w_id = w ∧ l.ol_d_id = d).length : Int)

/-- The districts of warehouse `w` that the statement of condition 4 compares:
those with at least one order and at least one order_line row. -/
def comparedDistricts (db : Database) (w : Int) : List Int :=
  ((db.orders.filter fun o => o.o_w_id = w ∧ 0 < actualLines db w o.o_d_id).map
    fun o => o.o_d_id).dedup

/-- The dataset without district `d` of warehouse `w` and without its orders. -/
def dropDistrict (db : Database) (w d : Int) : Database :=
  { db with
    district := db.district.filter fun r => ¬ (r.d_w_id = w ∧ r.d_id = d)
    orders := db.orders.filter fun o => ¬ (o.o_w_id = w ∧ o.o_d_id = d) }

/-! ## Vocabulary for the statements -/

/-- The 1-based condition a statement belongs to. -/
def QueryId.index : QueryId → Int
  | .cond1 => 1
  | .cond2 => 2
  | .cond3 => 3
  | .cond4 => 4

/-- The expression a check names when it reports a non-zero difference. -/
def QueryId.expr : QueryId → String
  | .cond1 => "sum(d_ytd) - max(w_ytd) should be 0"
  | .cond2 =>
      "POWER((o_nexi_o_id -1 - max(o_id)), 2) + POWER((o_nexi_o_id -1 - max(no_o_id)), 2) != 0"
  | .cond3 => "max(no_o_id)-min(no_o_id)+1 - count(*)"
  | .cond4 => "max(no_o_id)-min(no_o_id)+1 - count(*)"

/-- The parameters a check passes with its statement. -/
def QueryId.args : QueryId → Int → List Int
  | .cond1, w => [w]
  | .cond2, w => [w]
  | .cond3, w => [w]
  | .cond4, w => [w, w]

/-- The check that sends a given statement. -/
def checkOf : QueryId → Conn → CheckFn (List Call)
  | .cond1 => checkCondition1
  | .cond2 => checkCondition2
  | .cond3 => checkCondition3
  | .cond4 => checkCondition4

/-- What the check sending statement `q` for `warehouse` returns when the
queries in `log` have been issued before. -/
def outcome (conn : Conn) (log : List Call) (q : QueryId) (warehouse : Int) : Option GoError :=
  match conn log q (q.args warehouse) with
  | .error err => some (.exec q.sql (.driver err))
  | .ok rows => scanRows q.expr warehouse rows.scans rows.err

/-- The reading of a run from its trace: the evaluations are taken in order,
the first one that fails ends the run with the error of `Check`; when none
fails the run ends as `final`. -/
def scanEvals (f : Int → Int → Option GoError) (final : Result) :
    List Eval → List Eval → Result × List Eval
  | [], acc => (final, acc)
  | (w, k) :: rest, acc =>
      match f k w with
      | some err => (.ret (some (.condition k err)), acc ++ [(w, k)])
      | none => scanEvals f final rest (acc ++ [(w, k)])

/-- The checks that never fail. -/
def passAll : Int → Int → Option GoError := fun _ _ => none

/-- The queries `new`, issued one after the other once `log` had been issued,
account for the result `res`: every query but the last belongs to a check that
passed, and a check that failed is the last one and is what `res` reports. -/
def Accounts (conn : Conn) : List Call → List Call → Result → Prop
  | _, [], res => ∀ err, res ≠ .ret (some err)
  | log, c :: rest, res =>
      ∃ w, c.2 = c.1.args w ∧
        match outcome conn log c.1 w with
        | some err => rest = [] ∧ res = .ret (some (.condition c.1.index err))
        | none => Accounts conn (log ++ [c]) rest res

/-- A sample family of checks: conditions 1 and 3 fail on warehouse 5, with
differences 7 and 9; everything else passes. -/
def sampleChecks (k w : Int) : Option GoError :=
  if w = 5 ∧ k = 1 then some (.nonzero "c1" 5 7)
  else if w = 5 ∧ k = 3 then some (.nonzero "c3" 5 9)
  else none

/-- A sample family of checks: condition 1 fails on warehouse 1, with the
difference 7; everything else passes. -/
def overflowChecks (k w : Int) : Option GoError :=
  if w = 1 ∧ k = 1 then some (.nonzero "c1" 1 7) else none

/-- A sample connection: every query succeeds with the two rows 0 and 3. -/
def sampleRowsConn : Conn := fun _ _ _ => .ok ⟨[(0 : Rat), 3].map .ok, none⟩

/-- A sample connection on which every query fails with a timeout. -/
def failConn : Conn := fun _ _ _ => .error .deadlineExceeded

/-- A sample connection whose context is cancelled after five queries: the
first five succeed with no rows, every later one fails. -/
def cancelConn : Conn := fun log _ _ =>
  if log.length < 5 then .ok ⟨[], none⟩ else .error .canceled

/-- A sample connection on which the rows of condition 2 cannot be decoded. -/
def badRowConn : Conn := fun _ q _ =>
  if q = .cond2 then .ok ⟨[.ok 0, .error (.other "converting NULL to float64")], none⟩
  else .ok ⟨[], none⟩

/-- A sample dataset: district 1 of warehouse 1 has the new orders 1, 2, 4. -/
def gapDb : Database := ⟨[], [], [], [⟨1, 1, 1⟩, ⟨2, 1, 1⟩, ⟨4, 1, 1⟩], []⟩

/-- A sample dataset: district 1 of warehouse 1 has the new orders 1, 2, 3. -/
def denseDb : Database := ⟨[], [], [], [⟨1, 1, 1⟩, ⟨2, 1, 1⟩, ⟨3, 1, 1⟩], []⟩

/-- A sample dataset: district 1 of warehouse 1 has one order that declares
five lines, and no order_line row exists. -/
def orphanDb : Database := ⟨[⟨1, 0⟩], [⟨1, 1, 0, 2⟩], [⟨1, 1, 1, 5⟩], [], []⟩

/-- A sample dataset: warehouse 1 has district 1 with order 1 and new order
1, and district 2 with order 9 and no new order. -/
def quietDb : Database :=
  ⟨[⟨1, 0⟩], [⟨1, 1, 0, 2⟩, ⟨2, 1, 0, 10⟩], [⟨1, 1, 1, 0⟩, ⟨9, 2, 1, 0⟩], [⟨1, 1, 1⟩], []⟩

/-- A sample dataset: in warehouse 1, district 1 declares 6 lines and has 2,
district 2 declares 2 lines and has 2. -/
def mismatchDb : Database :=
  ⟨[], [], [⟨1, 1, 1, 5⟩, ⟨2, 1, 1, 1⟩, ⟨3, 2, 1, 2⟩], [],
    [⟨1, 1, 1, 1⟩, ⟨1, 1, 1, 2⟩, ⟨3, 2, 1, 1⟩, ⟨3, 2, 1, 2⟩]⟩

/-! ## Arithmetic of the loop -/

theorem wrap64_eq {x : Int} (h1 : -(2 ^ 63) ≤ x) (h2 : x < 2 ^ 63) : wrap64 x = x := by
  unfold wrap64; omega

theorem lt_strideCount_iff {W T i : Int} (hT : 1 ≤ T) (k : Nat) :
    k < strideCount W T i ↔ i + 1 + (k : Int) * T ≤ W := by
  unfold strideCount
  rw [Int.lt_toNat, Int.lt_iff_add_one_le, Int.le_ediv_iff_mul_le (by omega)]
  constructor <;> intro h <;> nlinarith

theorem strideCount_of_ge {W T i : Int} (hT : 1 ≤ T) (h : W ≤ i) : strideCount W T i = 0 := by
  by_contra hne
  have h0 : 0 < strideCount W T i := Nat.pos_of_ne_zero hne
  have := (lt_strideCount_iff (W := W) (i := i) hT 0).1 h0
  omega

theorem strideCount_of_lt {W T i : Int} (hT : 1 ≤ T) (h : i < W) :
    strideCount W T i = strideCount W T (i + T) + 1 := by
  apply Nat.le_antisymm
  · by_contra hlt
    push_neg at hlt
    have h1 : strideCount W T (i + T) + 1 < strideCount W T i := hlt
    have h2 := (lt_strideCount_iff (W := W) (i := i) hT _).1 h1
    have h3 : ¬ (strideCount W T (i + T) < strideCount W T (i + T)) := lt_irrefl _
    rw [lt_strideCount_iff hT] at h3
    push_cast at h2
    apply h3
    nlinarith
  · rcases Nat.eq_zero_or_pos (strideCount W T (i + T)) with h0 | hpos
    · rw [h0]
      exact (lt_strideCount_iff hT 0).2 (by simp; omega)
    · have h1 : strideCount W T (i + T) - 1 < strideCount W T (i + T) := by omega
      have h2 := (lt_strideCount_iff hT _).1 h1
      have h3 : strideCount W T (i + T) - 1 + 1 < strideCount W T i := by
        rw [lt_strideCount_iff hT]
        push_cast
        nlinarith
      omega

theorem strideCount_le {W T i : Int} (hT : 1 ≤ T) (hi : 0 ≤ i) :
    strideCount W T i ≤ W.toNat := by
  by_contra hlt
  push_neg at hlt
  have h1 := (lt_strideCount_iff (W := W) (i := i) hT _).1 hlt
  have h2 : (0 : Int) ≤ (W.toNat : Int) * (T - 1) :=
    mul_nonneg (Int.ofNat_nonneg _) (by omega)
  have h3 : W ≤ (W.toNat : Int) := Int.self_le_toNat W
  nlinarith

theorem stride_of_ge {W T i : Int} (hT : 1 ≤ T) (h : W ≤ i) : stride W T i = [] := by
  simp [stride, strideCount_of_ge hT h]

theorem stride_of_lt {W T i : Int} (hT : 1 ≤ T) (h : i < W) :
    stride W T i = (i + 1) :: stride W T (i + T) := by
  unfold stride
  rw [strideCount_of_lt hT h, List.range_succ_eq_map]
  rw [List.map_cons, List.map_map]
  congr 1
  · simp
  · apply List.map_congr_left
    intro k _
    simp only [Function.comp, Nat.succ_eq_add_one]
    push_cast
    ring

theorem mem_stride {W T i : Int} (hT : 1 ≤ T) (x : Int) :
    x ∈ stride W T i ↔ ∃ k : Nat, x = i + 1 + (k : Int) * T ∧ x ≤ W := by
  unfold stride
  simp only [List.mem_map, List.mem_range]
  constructor
  · rintro ⟨k, hk, rfl⟩
    exact ⟨k, rfl, (lt_strideCount_iff hT k).1 hk⟩
  · rintro ⟨k, rfl, hk⟩
    exact ⟨k, (lt_strideCount_iff hT k).2 hk, rfl⟩

theorem stride_pairwise_lt {W T i : Int} (hT : 1 ≤ T) :
    (stride W T i).Pairwise (· < ·) := by
  unfold stride
  rw [List.pairwise_map]
  refine List.Pairwise.imp ?_ (List.pairwise_lt_range _)
  intro a b hab
  have h1 : (a : Int) < (b : Int) := by exact_mod_cast hab
  nlinarith

/-! ## The loop as a run over the stride -/

/-- The loop of one worker is the run over its stride as long as the loop
variable stays inside the 64-bit range: the first value of `i, i + T, ...`
that is not below `W` is below `2^63`. -/
theorem checkLoop_eq_runSeq {σ : Type} (checks : List (CheckFn σ)) {W T : Int}
    (hT : 1 ≤ T) :
    ∀ (fuel : Nat) (i : Int) (s : σ), 0 ≤ i →
      i + (strideCount W T i : Int) * T < 2 ^ 63 → strideCount W T i < fuel →
      checkLoop checks ⟨T, W⟩ fuel i s = runSeq checks (stride W T i) s := by
  intro fuel
  induction fuel with
  | zero => intro i s _ _ h; omega
  | succ n ih =>
    intro i s hi hfit hf
    by_cases hlt : i < W
    · have hne : ¬ W = 0 := by omega
      have hmod : Int.tmod i W = i := by
        rw [Int.tmod_eq_emod hi (by omega), Int.emod_eq_of_lt hi hlt]
      have hcount := strideCount_of_lt hT hlt
      have hnext : i + T + (strideCount W T (i + T) : Int) * T < 2 ^ 63 := by
        rw [hcount] at hfit
        push_cast at hfit
        linarith
      have hk0 : (0 : Int) ≤ (strideCount W T (i + T) : Int) * T :=
        mul_nonneg (Int.ofNat_nonneg _) (by omega)
      have hw1 : wrap64 (i + 1) = i + 1 := wrap64_eq (by omega) (by omega)
      have hw2 : wrap64 (i + T) = i + T := wrap64_eq (by omega) (by omega)
      rw [stride_of_lt hT hlt]
      simp only [checkLoop, runSeq, hlt, hne, if_true, if_false, hmod, hw1, hw2]
      rcases hrc : runChecks checks (i + 1) 0 s with ⟨_ | err, s1⟩
      · simp only []
        apply ih
        · omega
        · exact hnext
        · omega
      · simp only []
    · rw [stride_of_ge hT (by omega)]
      simp [checkLoop, runSeq, hlt]

/-- The loop variable of every worker stays inside the 64-bit range when
`W + T ≤ 2^63`. -/
theorem fits_of_bound {W T t : Int} (hT : 1 ≤ T) (htT : t < T)
    (hW : 1 ≤ W) (hb : W + T ≤ 2 ^ 63) :
    t + (strideCount W T t : Int) * T < 2 ^ 63 := by
  rcases Nat.eq_zero_or_pos (strideCount W T t) with h0 | hpos
  · rw [h0]
    simp
    omega
  · have h1 : strideCount W T t - 1 < strideCount W T t := by omega
    have h2 := (lt_strideCount_iff (W := W) (i := t) hT _).1 h1
    have h3 : ((strideCount W T t - 1 : Nat) : Int) = (strideCount W T t : Int) - 1 := by
      omega
    rw [h3] at h2
    nlinarith

theorem CheckWith_eq_runSeq_fits {σ : Type} (checks : List (CheckFn σ)) {W T t : Int}
    (hT : 1 ≤ T) (ht0 : 0 ≤ t) (htT : t < T)
    (hfit : t + (strideCount W T t : Int) * T < 2 ^ 63)
    (fuel : Nat) (hf : strideCount W T t < fuel) (s : σ) :
    CheckWith checks ⟨T, W⟩ t fuel s = runSeq checks (stride W T t) s := by
  have hT0 : ¬ T = 0 := by omega
  have hmod : Int.tmod t T = t := by
    rw [Int.tmod_eq_emod ht0 (by omega), Int.emod_eq_of_lt ht0 htT]
  simp only [CheckWith, hT0, if_false, hmod]
  exact checkLoop_eq_runSeq checks hT fuel t s ht0 hfit hf

theorem CheckWith_eq_runSeq {σ : Type} (checks : List (CheckFn σ)) {W T t : Int}
    (hW : 1 ≤ W) (hT : 1 ≤ T) (ht0 : 0 ≤ t) (htT : t < T) (hb : W + T ≤ 2 ^ 63)
    (fuel : Nat) (hf : W.toNat < fuel) (s : σ) :
    CheckWith checks ⟨T, W⟩ t fuel s = runSeq checks (stride W T t) s :=
  CheckWith_eq_runSeq_fits checks hT ht0 htT (fits_of_bound hT htT hW hb) fuel
    (lt_of_le_of_lt (strideCount_le hT ht0) hf) s

/-- More fuel does not change a run that ended. -/
theorem checkLoop_fuel_mono {σ : Type} (checks : List (CheckFn σ)) (cfg : Config) :
    ∀ (fuel : Nat) (i : Int) (s : σ), (checkLoop checks cfg fuel i s).1 ≠ .outOfFuel →
      ∀ more, checkLoop checks cfg (fuel + more) i s = checkLoop checks cfg fuel i s := by
  intro fuel
  induction fuel with
  | zero => intro i s h; simp [checkLoop] at h
  | succ n ih =>
    intro i s h more
    have e : n + 1 + more = (n + more) + 1 := by omega
    rw [e]
    simp only [checkLoop] at h ⊢
    split
    · split
      · rfl
      · rename_i hlt hne
        simp only [hlt, hne, if_true, if_false] at h
        rcases hrc : runChecks checks (wrap64 (Int.tmod i cfg.Warehouses + 1)) 0 s
          with ⟨_ | err, s1⟩
        · simp only [hrc] at h ⊢
          exact ih _ _ h more
        · simp only []
    · rfl

/-! ## The four checks on the connection -/

theorem checkOf_eq (q : QueryId) (conn : Conn) (w : Int) (log : List Call) :
    checkOf q conn w log = (outcome conn log q w, log ++ [(q, q.args w)]) := by
  cases q <;>
    simp only [checkOf, checkCondition1, checkCondition2, checkCondition3, checkCondition4,
      outcome, QueryId.args, QueryId.expr] <;>
    split <;> rfl

theorem scanRows_zeros (expr : String) (w : Int) (scans : List (Except ConnError Rat))
    (h : ∀ r ∈ scans, r = .ok 0) : scanRows expr w scans none = none := by
  induction scans with
  | nil => rfl
  | cons r rest ih =>
    have hr : r = .ok 0 := h r (List.mem_cons_self _ _)
    subst hr
    simp only [scanRows, ne_eq, not_true_eq_false, if_false]
    exact ih fun x hx => h x (List.mem_cons_of_mem _ hx)

theorem outcome_healthy {conn : Conn} (hc : Healthy conn) (log : List Call) (q : QueryId)
    (w : Int) : outcome conn log q w = none := by
  obtain ⟨rows, h1, h2, h3⟩ := hc log q (q.args w)
  simp only [outcome, h1, h2]
  exact scanRows_zeros _ _ _ h3

theorem emptyConn_healthy : Healthy emptyConn := by
  intro log q args
  exact ⟨⟨[], none⟩, rfl, rfl, by simp⟩

theorem wrap64_small : wrap64 (0 + 1) = 1 ∧ wrap64 (1 + 1) = 2 ∧ wrap64 (2 + 1) = 3 ∧
    wrap64 (3 + 1) = 4 := by
  decide

/-- The inner loop over the four checks of the workloader, read off the
outcomes of the checks. -/
theorem runChecks_real (conn : Conn) (w : Int) (log : List Call) :
    runChecks [checkCondition1 conn, checkCondition2 conn, checkCondition3 conn,
        checkCondition4 conn] w 0 log =
      match outcome conn log .cond1 w with
      | some err => (some (.condition 1 err), log ++ [(.cond1, [w])])
      | none =>
        match outcome conn (log ++ [(.cond1, [w])]) .cond2 w with
        | some err => (some (.condition 2 err), log ++ [(.cond1, [w]), (.cond2, [w])])
        | none =>
          match outcome conn (log ++ [(.cond1, [w]), (.cond2, [w])]) .cond3 w with
          | some err =>
              (some (.condition 3 err), log ++ [(.cond1, [w]), (.cond2, [w]), (.cond3, [w])])
          | none =>
            match outcome conn (log ++ [(.cond1, [w]), (.cond2, [w]), (.cond3, [w])]) .cond4 w with
            | some err => (some (.condition 4 err), log ++ callsFor w)
            | none => (none, log ++ callsFor w) := by
  have e1 := checkOf_eq .cond1 conn w
  have e2 := checkOf_eq .cond2 conn w
  have e3 := checkOf_eq .cond3 conn w
  have e4 := checkOf_eq .cond4 conn w
  simp only [checkOf, QueryId.args] at e1 e2 e3 e4
  obtain ⟨w1, w2, w3, w4⟩ := wrap64_small
  simp only [runChecks, e1, e2, e3, e4, w1, w2, w3, w4, callsFor, List.append_assoc,
    List.singleton_append, List.cons_append, List.nil_append]
  cases outcome conn log .cond1 w with
  | some err => rfl
  | none =>
    simp only [List.append_assoc, List.cons_append, List.nil_append]
    cases outcome conn (log ++ [(.cond1, [w])]) .cond2 w with
    | some err => rfl
    | none =>
      simp only [List.append_assoc, List.cons_append, List.nil_append]
      cases outcome conn (log ++ [(.cond1, [w]), (.cond2, [w])]) .cond3 w with
      | some err => rfl
      | none =>
        simp only [List.append_assoc, List.cons_append, List.nil_append]
        cases outcome conn (log ++ [(.cond1, [w]), (.cond2, [w]), (.cond3, [w])]) .cond4 w with
        | some err => rfl
        | none => rfl

theorem runChecks_healthy {conn : Conn} (hc : Healthy conn) (w : Int) (log : List Call) :
    runChecks [checkCondition1 conn, checkCondition2 conn, checkCondition3 conn,
        checkCondition4 conn] w 0 log = (none, log ++ callsFor w) := by
  rw [runChecks_real]
  simp only [outcome_healthy hc]

theorem runSeq_healthy {conn : Conn} (hc : Healthy conn) :
    ∀ (ws : List Int) (log : List Call),
      runSeq [checkCondition1 conn, checkCondition2 conn, checkCondition3 conn,
          checkCondition4 conn] ws log = (.ret none, log ++ ws.flatMap callsFor) := by
  intro ws
  induction ws with
  | nil => intro log; simp [runSeq]
  | cons w rest ih =>
    intro log
    simp only [runSeq, runChecks_healthy hc, ih, List.flatMap_cons, List.append_assoc]

theorem visited_append (l1 l2 : List Call) : visited (l1 ++ l2) = visited l1 ++ visited l2 := by
  simp [visited, List.filterMap_append]

theorem visited_flatMap_callsFor (ws : List Int) : visited (ws.flatMap callsFor) = ws := by
  induction ws with
  | nil => rfl
  | cons w rest ih =>
    rw [List.flatMap_cons, visited_append, ih]
    simp [visited, callsFor, List.filterMap]

/-- A run on a healthy connection, inside the range of the machine integers:
it succeeds and issues the queries of the stride, warehouse by warehouse. -/
theorem Check_healthy {conn : Conn} (hc : Healthy conn) {W T t : Int}
    (hW : 1 ≤ W) (hT : 1 ≤ T) (ht0 : 0 ≤ t) (htT : t < T) (hb : W + T ≤ 2 ^ 63)
    (fuel : Nat) (hf : W.toNat < fuel) :
    Check conn ⟨T, W⟩ t fuel [] = (.ret none, (stride W T t).flatMap callsFor) := by
  unfold Check
  rw [CheckWith_eq_runSeq _ hW hT ht0 htT hb fuel hf, runSeq_healthy hc]
  simp

/-! ## The partition of the warehouses -/

theorem mem_stride_iff_residue {W T t : Int} (hW : 1 ≤ W) (hT : 1 ≤ T) (ht0 : 0 ≤ t)
    (htT : t < T) (x : Int) :
    x ∈ stride W T t ↔ ∃ i, 0 ≤ i ∧ i < W ∧ i % T = t ∧ x = Int.tmod i W + 1 := by
  rw [mem_stride hT]
  constructor
  · rintro ⟨k, rfl, hk⟩
    have hk0 : (0 : Int) ≤ (k : Int) * T := mul_nonneg (Int.ofNat_nonneg _) (by omega)
    refine ⟨t + (k : Int) * T, by omega, by omega, ?_, ?_⟩
    · rw [Int.add_mul_emod_self, Int.emod_eq_of_lt ht0 htT]
    · rw [Int.tmod_eq_emod (by omega) (by omega), Int.emod_eq_of_lt (by omega) (by omega)]
      ring
  · rintro ⟨i, hi0, hiW, hmod, rfl⟩
    have hq : 0 ≤ i / T := Int.ediv_nonneg hi0 (by omega)
    have hdecomp := Int.ediv_add_emod i T
    refine ⟨(i / T).toNat, ?_, ?_⟩
    · rw [Int.tmod_eq_emod hi0 (by omega), Int.emod_eq_of_lt hi0 hiW, Int.toNat_of_nonneg hq]
      rw [hmod] at hdecomp
      linarith
    · rw [Int.tmod_eq_emod hi0 (by omega), Int.emod_eq_of_lt hi0 hiW]
      omega

theorem strides_perm (W T : Nat) (hW : 1 ≤ W) (hT : 1 ≤ T) :
    List.Perm ((List.range T).flatMap fun (t : Nat) => stride (W : Int) (T : Int) (t : Int))
      ((List.range' 1 W).map fun (n : Nat) => (n : Int)) := by
  have hTi : (1 : Int) ≤ (T : Int) := by exact_mod_cast hT
  have hWi : (1 : Int) ≤ (W : Int) := by exact_mod_cast hW
  have hres : ∀ (t : Nat), t < T → ∀ x, x ∈ stride (W : Int) (T : Int) (t : Int) →
      (x - 1) % (T : Int) = (t : Int) := by
    intro t ht x hx
    obtain ⟨k, rfl, _⟩ := (mem_stride hTi x).1 hx
    have e : (t : Int) + 1 + (k : Int) * (T : Int) - 1 = (t : Int) + (k : Int) * (T : Int) := by
      ring
    rw [e, Int.add_mul_emod_self]
    exact Int.emod_eq_of_lt (Int.ofNat_nonneg _) (by exact_mod_cast ht)
  rw [List.perm_ext_iff_of_nodup]
  · intro x
    simp only [List.mem_flatMap, List.mem_range, List.mem_map, List.mem_range'_1]
    constructor
    · rintro ⟨t, ht, hx⟩
      obtain ⟨k, rfl, hk⟩ := (mem_stride hTi x).1 hx
      have hk0 : (0 : Int) ≤ (k : Int) * (T : Int) :=
        mul_nonneg (Int.ofNat_nonneg _) (by omega)
      refine ⟨((t : Int) + 1 + (k : Int) * (T : Int)).toNat, ?_, ?_⟩
      · omega
      · rw [Int.toNat_of_nonneg (by omega)]
    · rintro ⟨n, ⟨hn1, hn2⟩, rfl⟩
      have hn0 : (0 : Int) ≤ (n : Int) - 1 := by omega
      have hq : 0 ≤ ((n : Int) - 1) / (T : Int) := Int.ediv_nonneg hn0 (by omega)
      have hr0 : 0 ≤ ((n : Int) - 1) % (T : Int) := Int.emod_nonneg _ (by omega)
      have hr1 : ((n : Int) - 1) % (T : Int) < (T : Int) := Int.emod_lt_of_pos _ (by omega)
      have hdecomp := Int.ediv_add_emod ((n : Int) - 1) (T : Int)
      refine ⟨(((n : Int) - 1) % (T : Int)).toNat, by omega, ?_⟩
      rw [mem_stride hTi]
      refine ⟨(((n : Int) - 1) / (T : Int)).toNat, ?_, by omega⟩
      rw [Int.toNat_of_nonneg hr0, Int.toNat_of_nonneg hq]
      linarith
  · rw [List.nodup_flatMap]
    constructor
    · intro t _
      exact (stride_pairwise_lt hTi).nodup
    · refine (List.nodup_range T).pairwise_of_forall_ne ?_
      intro a ha b hb hab
      rw [Function.onFun, List.disjoint_left]
      intro x hxa hxb
      have h1 := hres a (List.mem_range.1 ha) x hxa
      have h2 := hres b (List.mem_range.1 hb) x hxb
      apply hab
      have : (a : Int) = (b : Int) := by rw [← h1, ← h2]
      exact_mod_cast this
  · exact (List.nodup_range' 1 W).map (fun a b h => by exact_mod_cast h)

theorem overflow_run (fuel : Nat) (hf : 4 ≤ fuel) :
    Check emptyConn ⟨2 ^ 63 - 1, 2⟩ 1 fuel [] = (.ret none, [2, 1, 0].flatMap callsFor) := by
  obtain ⟨more, rfl⟩ := Nat.exists_eq_add_of_le hf
  have h4 : Check emptyConn ⟨2 ^ 63 - 1, 2⟩ 1 4 [] = (.ret none, [2, 1, 0].flatMap callsFor) := by
    decide
  have hne : ¬ ((2 : Int) ^ 63 - 1 = 0) := by decide
  have hmod : Int.tmod 1 ((2 : Int) ^ 63 - 1) = 1 := by decide
  simp only [Check, CheckWith, hne, if_false, hmod] at h4 ⊢
  rw [checkLoop_fuel_mono _ _ 4 _ _ (by rw [h4]; simp) more]
  exact h4

/-! ## C1 -/

/-- C1 (amended): for every warehouse count `W ≥ 1` and worker count `T ≥ 1`
with `W + T ≤ 2^63`, on a connection where every check passes, each worker
`0, ..., T-1` returns success, and the lists of warehouses the workers visit,
concatenated, are a permutation of `[1, ..., W]`. -/
theorem partition_complete (conn : Conn) (hc : Healthy conn) (W T : Nat) (hW : 1 ≤ W)
    (hT : 1 ≤ T) (hb : (W : Int) + (T : Int) ≤ 2 ^ 63) (fuel : Nat) (hf : W < fuel) :
    (∀ t : Nat, t < T → (Check conn ⟨(T : Int), (W : Int)⟩ (t : Int) fuel []).1 = .ret none) ∧
    List.Perm
      ((List.range T).flatMap fun (t : Nat) =>
        visited (Check conn ⟨(T : Int), (W : Int)⟩ (t : Int) fuel []).2)
      ((List.range' 1 W).map fun (n : Nat) => (n : Int)) := by
  have hTi : (1 : Int) ≤ (T : Int) := by exact_mod_cast hT
  have hWi : (1 : Int) ≤ (W : Int) := by exact_mod_cast hW
  have hrun : ∀ t : Nat, t < T → Check conn ⟨(T : Int), (W : Int)⟩ (t : Int) fuel [] =
      (.ret none, (stride (W : Int) (T : Int) (t : Int)).flatMap callsFor) := by
    intro t ht
    exact Check_healthy hc hWi hTi (Int.ofNat_nonneg _) (by exact_mod_cast ht) hb fuel
      (by simpa using hf)
  constructor
  · intro t ht
    rw [hrun t ht]
  · have hcongr : ((List.range T).flatMap fun (t : Nat) =>
        visited (Check conn ⟨(T : Int), (W : Int)⟩ (t : Int) fuel []).2) =
        (List.range T).flatMap fun (t : Nat) => stride (W : Int) (T : Int) (t : Int) := by
      apply List.flatMap_congr
      intro t ht
      rw [hrun t (List.mem_range.1 ht), visited_flatMap_callsFor]
    rw [hcongr]
    exact strides_perm W T hW hT

/-- Witness of C1: ten warehouses shared by three workers. -/
theorem partition_complete_witness :
    (∀ t : Nat, t < 3 →
      (Check emptyConn ⟨((3 : Nat) : Int), ((10 : Nat) : Int)⟩ (t : Int) 11 []).1 = .ret none) ∧
    List.Perm
      ((List.range 3).flatMap fun (t : Nat) =>
        visited (Check emptyConn ⟨((3 : Nat) : Int), ((10 : Nat) : Int)⟩ (t : Int) 11 []).2)
      ((List.range' 1 10).map fun (n : Nat) => (n : Int)) :=
  partition_complete emptyConn emptyConn_healthy 10 3 (by decide) (by decide) (by decide) 11
    (by decide)

/-- C1 as stated fails when `i += Threads` overflows the 64-bit `int`: with
2 warehouses and `2^63 - 1` workers, worker 1 returns success after visiting
warehouses 2, 1 and 0, so the concatenation of the visits is no permutation of
`[1, 2]`, whatever fuel lets the runs end. -/
theorem partition_complete_overflow :
    (Check emptyConn ⟨((2 ^ 63 - 1 : Nat) : Int), ((2 : Nat) : Int)⟩ ((1 : Nat) : Int) 4
        []).1 = .ret none ∧
    visited (Check emptyConn ⟨((2 ^ 63 - 1 : Nat) : Int), ((2 : Nat) : Int)⟩ ((1 : Nat) : Int) 4
        []).2 = [2, 1, 0] ∧
    ¬ ∃ fuel : Nat, 4 ≤ fuel ∧
      List.Perm
        ((List.range (2 ^ 63 - 1)).flatMap fun (t : Nat) =>
          visited (Check emptyConn ⟨((2 ^ 63 - 1 : Nat) : Int), ((2 : Nat) : Int)⟩ (t : Int)
            fuel []).2)
        ((List.range' 1 2).map fun (n : Nat) => (n : Int)) := by
  have hT : ((2 ^ 63 - 1 : Nat) : Int) = 2 ^ 63 - 1 := by norm_num
  have h2 : ((2 : Nat) : Int) = 2 := rfl
  have h1 : ((1 : Nat) : Int) = 1 := rfl
  rw [hT, h2, h1]
  refine ⟨?_, ?_, ?_⟩
  · rw [overflow_run 4 (le_refl _)]
  · rw [overflow_run 4 (le_refl _), visited_flatMap_callsFor]
  · rintro ⟨fuel, hf, hperm⟩
    have hmem : (0 : Int) ∈ (List.range (2 ^ 63 - 1)).flatMap fun (t : Nat) =>
        visited (Check emptyConn ⟨2 ^ 63 - 1, 2⟩ (t : Int) fuel []).2 := by
      rw [List.mem_flatMap]
      refine ⟨1, List.mem_range.2 (by norm_num), ?_⟩
      rw [h1, overflow_run fuel hf, visited_flatMap_callsFor]
      simp
    have := hperm.mem_iff.1 hmem
    simp [List.mem_range'_1] at this

/-! ## C2 -/

theorem visited_calls (log : List Call) (w : Int) :
    visited (log ++ [(.cond1, [w])]) = visited log ++ [w] ∧
    visited (log ++ [(.cond1, [w]), (.cond2, [w])]) = visited log ++ [w] ∧
    visited (log ++ [(.cond1, [w]), (.cond2, [w]), (.cond3, [w])]) = visited log ++ [w] ∧
    visited (log ++ callsFor w) = visited log ++ [w] := by
  simp [visited_append, visited, callsFor, List.filterMap]

/-- On any connection the run over a list of warehouses passes a prefix of the
list to the checks, and the whole list when it returns success. -/
theorem runSeq_real_prefix (conn : Conn) :
    ∀ (ws : List Int) (log : List Call), ∃ pre,
      visited (runSeq [checkCondition1 conn, checkCondition2 conn, checkCondition3 conn,
        checkCondition4 conn] ws log).2 = visited log ++ pre ∧ pre <+: ws ∧
      ((runSeq [checkCondition1 conn, checkCondition2 conn, checkCondition3 conn,
        checkCondition4 conn] ws log).1 = .ret none →
        (runSeq [checkCondition1 conn, checkCondition2 conn, checkCondition3 conn,
          checkCondition4 conn] ws log).2 = log ++ ws.flatMap callsFor) := by
  intro ws
  induction ws with
  | nil =>
    intro log
    exact ⟨[], by simp [runSeq], List.prefix_refl _, by simp [runSeq]⟩
  | cons w rest ih =>
    intro log
    obtain ⟨v1, v2, v3, v4⟩ := visited_calls log w
    have hpre : [w] <+: w :: rest := ⟨rest, rfl⟩
    simp only [runSeq, runChecks_real]
    cases outcome conn log .cond1 w with
    | some err => exact ⟨[w], v1, hpre, by simp⟩
    | none =>
      simp only []
      cases outcome conn (log ++ [(.cond1, [w])]) .cond2 w with
      | some err => exact ⟨[w], v2, hpre, by simp⟩
      | none =>
        simp only []
        cases outcome conn (log ++ [(.cond1, [w]), (.cond2, [w])]) .cond3 w with
        | some err => exact ⟨[w], v3, hpre, by simp⟩
        | none =>
          simp only []
          cases outcome conn (log ++ [(.cond1, [w]), (.cond2, [w]), (.cond3, [w])]) .cond4 w with
          | some err => exact ⟨[w], v4, hpre, by simp⟩
          | none =>
            simp only []
            obtain ⟨pre, h1, h2, h3⟩ := ih (log ++ callsFor w)
            refine ⟨w :: pre, ?_, ?_, ?_⟩
            · rw [h1, v4, List.append_assoc]
              rfl
            · obtain ⟨r, hr⟩ := h2
              exact ⟨r, by rw [← hr]; rfl⟩
            · intro h
              rw [h3 h, List.flatMap_cons, List.append_assoc]

theorem tmod_neg_bounds (a b : Int) (ha : a < 0) (hb : 0 < b) :
    Int.tmod a b ≤ 0 ∧ -b < Int.tmod a b := by
  obtain ⟨n, rfl⟩ : ∃ n : Nat, a = Int.negSucc n := by
    cases a with
    | ofNat k => exact absurd ha (by simp)
    | negSucc n => exact ⟨n, rfl⟩
  obtain ⟨m, rfl⟩ : ∃ m : Nat, b = (m : Int) := ⟨b.toNat, (Int.toNat_of_nonneg (by omega)).symm⟩
  have hm : 0 < m := by exact_mod_cast hb
  have h : Int.tmod (Int.negSucc n) (m : Int) = -(((n + 1) % m : Nat) : Int) := rfl
  rw [h]
  have := Nat.mod_lt (n + 1) hm
  omega

theorem checkLoop_healthy_extends {conn : Conn} (hc : Healthy conn) (cfg : Config) :
    ∀ (fuel : Nat) (i : Int) (log : List Call), ∃ new,
      (checkLoop [checkCondition1 conn, checkCondition2 conn, checkCondition3 conn,
        checkCondition4 conn] cfg fuel i log).2 = log ++ new := by
  intro fuel
  induction fuel with
  | zero => intro i log; exact ⟨[], by simp [checkLoop]⟩
  | succ n ih =>
    intro i log
    simp only [checkLoop]
    split
    · split
      · exact ⟨[], by simp⟩
      · simp only [runChecks_healthy hc]
        obtain ⟨new, hnew⟩ := ih (wrap64 (i + cfg.Threads))
          (log ++ callsFor (wrap64 (Int.tmod i cfg.Warehouses + 1)))
        exact ⟨callsFor (wrap64 (Int.tmod i cfg.Warehouses + 1)) ++ new, by
          rw [hnew, List.append_assoc]⟩
    · exact ⟨[], by simp⟩

/-- When the loop variable of a worker overflows, the worker passes one more
warehouse after its stride, and that warehouse is at most 1. -/
theorem checkLoop_overflow {conn : Conn} (hc : Healthy conn) {W T : Int} (hT : 1 ≤ T)
    (hTmax : T < 2 ^ 63) (hWmax : W < 2 ^ 63) :
    ∀ (fuel : Nat) (i : Int) (log : List Call), 0 ≤ i → i < W →
      2 ^ 63 ≤ i + (strideCount W T i : Int) * T → strideCount W T i + 1 < fuel →
      ∃ x rest, x ≤ 1 ∧
        visited (checkLoop [checkCondition1 conn, checkCondition2 conn, checkCondition3 conn,
          checkCondition4 conn] ⟨T, W⟩ fuel i log).2 =
          visited log ++ stride W T i ++ x :: rest := by
  intro fuel
  induction fuel with
  | zero => intro i log _ _ _ h; omega
  | succ m ih =>
    intro i log hi hlt hover hf
    have hne : ¬ W = 0 := by omega
    have hmod : Int.tmod i W = i := by
      rw [Int.tmod_eq_emod hi (by omega), Int.emod_eq_of_lt hi hlt]
    have hw1 : wrap64 (i + 1) = i + 1 := wrap64_eq (by omega) (by omega)
    have hcount := strideCount_of_lt hT hlt
    have hv := (visited_calls log (i + 1)).2.2.2
    simp only [checkLoop, hlt, hne, if_true, if_false, hmod, hw1, runChecks_healthy hc]
    by_cases hnext : i + T < W
    · have hw2 : wrap64 (i + T) = i + T := wrap64_eq (by omega) (by omega)
      rw [hw2]
      have hover2 : 2 ^ 63 ≤ i + T + (strideCount W T (i + T) : Int) * T := by
        rw [hcount] at hover
        push_cast at hover
        linarith
      obtain ⟨x, rest, hx, hvis⟩ := ih (i + T) (log ++ callsFor (i + 1)) (by omega) hnext
        hover2 (by omega)
      refine ⟨x, rest, hx, ?_⟩
      rw [hvis, hv, stride_of_lt hT hlt]
      simp
    · have hzero : strideCount W T (i + T) = 0 := strideCount_of_ge hT (by omega)
      have hover2 : 2 ^ 63 ≤ i + T := by
        rw [hcount, hzero] at hover
        simpa using hover
      have hw2 : wrap64 (i + T) = i + T - 2 ^ 64 := by
        unfold wrap64
        omega
      have hstride : stride W T i = [i + 1] := by
        rw [stride_of_lt hT hlt, stride_of_ge hT (by omega)]
      obtain ⟨m1, rfl⟩ : ∃ m1, m = m1 + 1 := ⟨m - 1, by omega⟩
      have hneg : i + T - 2 ^ 64 < 0 := by omega
      have hlt2 : i + T - 2 ^ 64 < W := by omega
      obtain ⟨hb1, hb2⟩ := tmod_neg_bounds (i + T - 2 ^ 64) W hneg (by omega)
      have hw3 : wrap64 (Int.tmod (i + T - 2 ^ 64) W + 1) = Int.tmod (i + T - 2 ^ 64) W + 1 :=
        wrap64_eq (by omega) (by omega)
      rw [hw2]
      simp only [checkLoop, hlt2, hne, if_true, if_false, hw3, runChecks_healthy hc]
      obtain ⟨new, hnew⟩ := checkLoop_healthy_extends hc ⟨T, W⟩ m1
        (wrap64 (i + T - 2 ^ 64 + T))
        (log ++ callsFor (i + 1) ++ callsFor (Int.tmod (i + T - 2 ^ 64) W + 1))
      refine ⟨Int.tmod (i + T - 2 ^ 64) W + 1, visited new, by omega, ?_⟩
      simp only [Config.Threads, Config.Warehouses] at hnew
      rw [hnew, visited_append, (visited_calls _ _).2.2.2, hv, hstride]
      simp

/-- C2 (amended): for `T ≥ 1`, `W ≥ 1` and a worker `0 ≤ t < T`.  When
`t ≥ W` the worker issues no query and returns success, on every connection.
When the loop variable of the worker does not overflow the 64-bit `int` (the
first value of `t, t+T, t+2T, ...` that is not below `W` is below `2^63`; this
is so whenever `W + T ≤ 2^63`), the warehouses `Check` passes to the checks are
a prefix of `t+1, t+1+T, t+1+2T, ...` up to `W`, on every connection; the run
returns success when every check passes; and a run that returns success has
passed exactly that sequence, four queries per warehouse: it is strictly
ascending and consists of the values `(i % W) + 1` for `0 ≤ i < W` with
`i ≡ t (mod T)`.  The condition is the exact one: when the loop variable does
overflow (with `W` and `T` values of the 64-bit `int`), the worker passes one
more warehouse after that sequence, and it is at most 1. -/
theorem strided_assignment (conn : Conn) (W T t : Int)
    (hW : 1 ≤ W) (hT : 1 ≤ T) (ht0 : 0 ≤ t) (htT : t < T)
    (fuel : Nat) (hf : strideCount W T t < fuel) :
    (W ≤ t → Check conn ⟨T, W⟩ t fuel [] = (.ret none, [])) ∧
    (∀ k : Nat, k < strideCount W T t ↔ t + 1 + (k : Int) * T ≤ W) ∧
    (W + T ≤ 2 ^ 63 → t + (strideCount W T t : Int) * T < 2 ^ 63) ∧
    (t + (strideCount W T t : Int) * T < 2 ^ 63 →
      visited (Check conn ⟨T, W⟩ t fuel []).2 <+:
        (List.range (strideCount W T t)).map (fun (k : Nat) => t + 1 + (k : Int) * T) ∧
      (Healthy conn → (Check conn ⟨T, W⟩ t fuel []).1 = .ret none) ∧
      ((Check conn ⟨T, W⟩ t fuel []).1 = .ret none →
        (Check conn ⟨T, W⟩ t fuel []).2 =
          (visited (Check conn ⟨T, W⟩ t fuel []).2).flatMap callsFor ∧
        visited (Check conn ⟨T, W⟩ t fuel []).2 =
          (List.range (strideCount W T t)).map (fun (k : Nat) => t + 1 + (k : Int) * T) ∧
        (visited (Check conn ⟨T, W⟩ t fuel []).2).Pairwise (· < ·) ∧
        (∀ x, x ∈ visited (Check conn ⟨T, W⟩ t fuel []).2 ↔
          ∃ i, 0 ≤ i ∧ i < W ∧ i % T = t ∧ x = Int.tmod i W + 1))) ∧
    (Healthy conn → T < 2 ^ 63 → W < 2 ^ 63 →
      2 ^ 63 ≤ t + (strideCount W T t : Int) * T → strideCount W T t + 1 < fuel →
      ∃ x rest, x ≤ 1 ∧ visited (Check conn ⟨T, W⟩ t fuel []).2 =
        (List.range (strideCount W T t)).map (fun (k : Nat) => t + 1 + (k : Int) * T) ++
          x :: rest) := by
  refine ⟨?_, fun k => lt_strideCount_iff hT k, fun hb => fits_of_bound hT htT hW hb, ?_, ?_⟩
  · intro hWt
    have hT0 : ¬ T = 0 := by omega
    have hmod : Int.tmod t T = t := by
      rw [Int.tmod_eq_emod ht0 (by omega), Int.emod_eq_of_lt ht0 htT]
    have hnlt : ¬ t < W := by omega
    obtain ⟨n, rfl⟩ : ∃ n, fuel = n + 1 := ⟨fuel - 1, by omega⟩
    simp [Check, CheckWith, hT0, hmod, checkLoop, hnlt]
  · intro hfit
    have hrun : Check conn ⟨T, W⟩ t fuel [] =
        runSeq [checkCondition1 conn, checkCondition2 conn, checkCondition3 conn,
          checkCondition4 conn] (stride W T t) [] := by
      unfold Check
      exact CheckWith_eq_runSeq_fits _ hT ht0 htT hfit fuel hf []
    obtain ⟨pre, h1, h2, h3⟩ := runSeq_real_prefix conn (stride W T t) []
    rw [← hrun] at h1 h3
    refine ⟨?_, ?_, ?_⟩
    · rw [h1]
      exact h2
    · intro hc
      rw [hrun, runSeq_healthy hc]
    · intro hok
      have hlog : (Check conn ⟨T, W⟩ t fuel []).2 = (stride W T t).flatMap callsFor := by
        rw [h3 hok]
        rfl
      have hvis : visited (Check conn ⟨T, W⟩ t fuel []).2 = stride W T t := by
        rw [hlog, visited_flatMap_callsFor]
      refine ⟨by rw [hvis, hlog], by rw [hvis]; rfl, ?_, ?_⟩
      · rw [hvis]
        exact stride_pairwise_lt hT
      · intro x
        rw [hvis]
        exact mem_stride_iff_residue hW hT ht0 htT x
  · intro hc hTmax hWmax hover hfuel
    have hT0 : ¬ T = 0 := by omega
    have hmod : Int.tmod t T = t := by
      rw [Int.tmod_eq_emod ht0 (by omega), Int.emod_eq_of_lt ht0 htT]
    have htW : t < W := by
      by_contra hge
      rw [strideCount_of_ge hT (by omega)] at hover
      simp at hover
      omega
    obtain ⟨x, rest, hx, hvis⟩ := checkLoop_overflow hc hT hTmax hWmax fuel t [] ht0 htW
      hover hfuel
    refine ⟨x, rest, hx, ?_⟩
    simp only [Check, CheckWith, hT0, if_false, hmod]
    rw [hvis]
    rfl

/-- Witness of C2: worker 1 of 3 over ten warehouses passes 2, 5, 8; with
2 warehouses and `2^63 - 1` workers, worker 0 passes warehouse 1 alone, and
worker 5 issues no query even when every query would fail. -/
theorem strided_assignment_witness :
    (visited (Check emptyConn ⟨3, 10⟩ 1 4 []).2 =
        (List.range (strideCount 10 3 1)).map (fun (k : Nat) => 1 + 1 + (k : Int) * 3) ∧
      (List.range (strideCount 10 3 1)).map (fun (k : Nat) => 1 + 1 + (k : Int) * 3) =
        [2, 5, 8]) ∧
    (visited (Check emptyConn ⟨2 ^ 63 - 1, 2⟩ 0 4 []).2 =
        (List.range (strideCount 2 (2 ^ 63 - 1) 0)).map
          (fun (k : Nat) => 0 + 1 + (k : Int) * (2 ^ 63 - 1)) ∧
      (List.range (strideCount 2 (2 ^ 63 - 1) 0)).map
          (fun (k : Nat) => 0 + 1 + (k : Int) * (2 ^ 63 - 1)) = [1]) ∧
    Check failConn ⟨2 ^ 63 - 1, 2⟩ 5 4 [] = (.ret none, []) :=
  ⟨⟨((strided_assignment emptyConn 10 3 1 (by decide) (by decide) (by decide) (by decide) 4
      (by decide)).2.2.2.1 (by decide)).2.2 (by decide) |>.2.1, by decide⟩,
    ⟨((strided_assignment emptyConn 2 (2 ^ 63 - 1) 0 (by decide) (by decide) (by decide)
      (by decide) 4 (by decide)).2.2.2.1 (by decide)).2.2 (by decide) |>.2.1, by decide⟩,
    (strided_assignment failConn 2 (2 ^ 63 - 1) 5 (by decide) (by decide) (by decide)
      (by decide) 4 (by decide)).1 (by decide)⟩

/-- C2 as stated fails when `i += Threads` overflows the 64-bit `int`: with
2 warehouses and `2^63 - 1` workers, worker 1 returns success after passing
the warehouses 2, 1, 0 to the checks, in that order.  The sequence is not
ascending, and 0 is not `(i % 2) + 1` for any `0 ≤ i < 2` with
`i ≡ 1 (mod 2^63 - 1)`. -/
theorem strided_assignment_overflow :
    Check emptyConn ⟨2 ^ 63 - 1, 2⟩ 1 4 [] = (.ret none, [2, 1, 0].flatMap callsFor) ∧
    visited (Check emptyConn ⟨2 ^ 63 - 1, 2⟩ 1 4 []).2 = [2, 1, 0] ∧
    ¬ (visited (Check emptyConn ⟨2 ^ 63 - 1, 2⟩ 1 4 []).2).Pairwise (· < ·) ∧
    ¬ ((0 : Int) ∈ visited (Check emptyConn ⟨2 ^ 63 - 1, 2⟩ 1 4 []).2 ↔
      ∃ i : Int, 0 ≤ i ∧ i < 2 ∧ i % (2 ^ 63 - 1) = 1 ∧ (0 : Int) = Int.tmod i 2 + 1) := by
  have hvis : visited (Check emptyConn ⟨2 ^ 63 - 1, 2⟩ 1 4 []).2 = [2, 1, 0] := by
    rw [overflow_run 4 (le_refl _), visited_flatMap_callsFor]
  refine ⟨overflow_run 4 (le_refl _), hvis, ?_, ?_⟩
  · rw [hvis]
    decide
  · rw [hvis]
    intro h
    obtain ⟨i, hi0, hi2, _, hi⟩ := h.1 (by simp)
    have hcases : i = 0 ∨ i = 1 := by omega
    rcases hcases with rfl | rfl
    · exact absurd hi (by decide)
    · exact absurd hi (by decide)

/-! ## The driver over checks given as functions -/

theorem runChecks_traced (f : Int → Int → Option GoError) (w : Int) (s : List Eval) :
    runChecks (tracedChecks f) w 0 s =
      match f 1 w with
      | some err => (some (.condition 1 err), s ++ [(w, 1)])
      | none =>
        match f 2 w with
        | some err => (some (.condition 2 err), s ++ [(w, 1), (w, 2)])
        | none =>
          match f 3 w with
          | some err => (some (.condition 3 err), s ++ [(w, 1), (w, 2), (w, 3)])
          | none =>
            match f 4 w with
            | some err => (some (.condition 4 err), s ++ evalsFor w)
            | none => (none, s ++ evalsFor w) := by
  obtain ⟨w1, w2, w3, w4⟩ := wrap64_small
  simp only [tracedChecks, runChecks, traced, w1, w2, w3, w4, evalsFor]
  cases f 1 w with
  | some err => rfl
  | none =>
    simp only [List.append_assoc, List.cons_append, List.nil_append]
    cases f 2 w with
    | some err => rfl
    | none =>
      simp only [List.append_assoc, List.cons_append, List.nil_append]
      cases f 3 w with
      | some err => rfl
      | none =>
        simp only [List.append_assoc, List.cons_append, List.nil_append]
        cases f 4 w with
        | some err => rfl
        | none => rfl

theorem runSeq_traced (f : Int → Int → Option GoError) :
    ∀ (ws : List Int) (s : List Eval),
      runSeq (tracedChecks f) ws s = scanEvals f (.ret none) (ws.flatMap evalsFor) s := by
  intro ws
  induction ws with
  | nil => intro s; rfl
  | cons w rest ih =>
    intro s
    simp only [runSeq, runChecks_traced, List.flatMap_cons, evalsFor, List.cons_append,
      List.nil_append, scanEvals]
    cases f 1 w with
    | some err => rfl
    | none =>
      simp only [List.append_assoc, List.cons_append, List.nil_append]
      cases f 2 w with
      | some err => rfl
      | none =>
        simp only [List.append_assoc, List.cons_append, List.nil_append]
        cases f 3 w with
        | some err => rfl
        | none =>
          simp only [List.append_assoc, List.cons_append, List.nil_append]
          cases f 4 w with
          | some err => rfl
          | none =>
            simp only [List.append_assoc, List.cons_append, List.nil_append]
            rw [ih]
            rfl

/-- For every configuration and every fuel, the loop with the checks `f` is
the reading of the trace of the loop on which nothing fails. -/
theorem checkLoop_traced (cfg : Config) :
    ∀ (fuel : Nat) (i : Int) (s : List Eval), ∃ (ws : List Int) (final : Result),
      checkLoop (tracedChecks passAll) cfg fuel i s = (final, s ++ ws.flatMap evalsFor) ∧
      ∀ f, checkLoop (tracedChecks f) cfg fuel i s =
        scanEvals f final (ws.flatMap evalsFor) s := by
  intro fuel
  induction fuel with
  | zero =>
    intro i s
    exact ⟨[], .outOfFuel, by simp [checkLoop], fun f => by simp [checkLoop, scanEvals]⟩
  | succ n ih =>
    intro i s
    by_cases hlt : i < cfg.Warehouses
    · by_cases hW : cfg.Warehouses = 0
      · refine ⟨[], .divideByZero, ?_, fun f => ?_⟩
        · simp only [checkLoop]
          rw [if_pos hlt, if_pos hW]
          simp
        · simp only [checkLoop]
          rw [if_pos hlt, if_pos hW]
          simp [scanEvals]
      · obtain ⟨ws, final, h0, hf⟩ := ih (wrap64 (i + cfg.Threads))
          (s ++ evalsFor (wrap64 (Int.tmod i cfg.Warehouses + 1)))
        refine ⟨wrap64 (Int.tmod i cfg.Warehouses + 1) :: ws, final, ?_, ?_⟩
        · simp only [checkLoop, hlt, hW, if_true, if_false, runChecks_traced, passAll]
          rw [h0, List.flatMap_cons, List.append_assoc]
        · intro f
          simp only [checkLoop, hlt, hW, if_true, if_false, runChecks_traced,
            List.flatMap_cons, evalsFor, List.cons_append, List.nil_append, scanEvals]
          generalize wrap64 (Int.tmod i cfg.Warehouses + 1) = w at hf ⊢
          cases f 1 w with
          | some err => rfl
          | none =>
            simp only [List.append_assoc, List.cons_append, List.nil_append]
            cases f 2 w with
            | some err => rfl
            | none =>
              simp only [List.append_assoc, List.cons_append, List.nil_append]
              cases f 3 w with
              | some err => rfl
              | none =>
                simp only [List.append_assoc, List.cons_append, List.nil_append]
                cases f 4 w with
                | some err => rfl
                | none =>
                  simp only [List.append_assoc, List.cons_append, List.nil_append]
                  have hf1 := hf f
                  simp only [evalsFor] at hf1
                  rw [hf1]
                  rfl
    · exact ⟨[], .ret none, by simp [checkLoop, hlt], fun f => by simp [checkLoop, hlt, scanEvals]⟩

theorem CheckWith_traced (cfg : Config) (t : Int) (fuel : Nat) :
    ∃ (ws : List Int) (final : Result),
      CheckWith (tracedChecks passAll) cfg t fuel [] = (final, ws.flatMap evalsFor) ∧
      ∀ f, CheckWith (tracedChecks f) cfg t fuel [] =
        scanEvals f final (ws.flatMap evalsFor) [] := by
  by_cases hT : cfg.Threads = 0
  · exact ⟨[], .divideByZero, by simp [CheckWith, hT], fun f => by simp [CheckWith, hT, scanEvals]⟩
  · obtain ⟨ws, final, h0, hf⟩ := checkLoop_traced cfg fuel (Int.tmod t cfg.Threads) []
    refine ⟨ws, final, ?_, ?_⟩
    · simp only [CheckWith, hT, if_false, h0, List.nil_append]
    · intro f
      simp only [CheckWith, hT, if_false, hf f]

theorem scanEvals_pass (f : Int → Int → Option GoError) (final : Result) :
    ∀ (l acc : List Eval), (∀ p ∈ l, f p.2 p.1 = none) →
      scanEvals f final l acc = (final, acc ++ l) := by
  intro l
  induction l with
  | nil => intro acc _; simp [scanEvals]
  | cons p rest ih =>
    intro acc h
    obtain ⟨w, k⟩ := p
    have hp : f k w = none := h (w, k) (List.mem_cons_self _ _)
    simp only [scanEvals, hp]
    rw [ih _ fun q hq => h q (List.mem_cons_of_mem _ hq)]
    simp

theorem scanEvals_fail (f : Int → Int → Option GoError) (final : Result) (w k : Int)
    (err : GoError) (post : List Eval) (hk : f k w = some err) :
    ∀ (pre acc : List Eval), (∀ p ∈ pre, f p.2 p.1 = none) →
      scanEvals f final (pre ++ (w, k) :: post) acc =
        (.ret (some (.condition k err)), acc ++ pre ++ [(w, k)]) := by
  intro pre
  induction pre with
  | nil => intro acc _; simp [scanEvals, hk]
  | cons p rest ih =>
    intro acc h
    obtain ⟨v, j⟩ := p
    have hp : f j v = none := h (v, j) (List.mem_cons_self _ _)
    have e := ih (acc ++ [(v, j)]) fun q hq => h q (List.mem_cons_of_mem _ hq)
    rw [List.cons_append]
    simp only [scanEvals, hp]
    rw [e]
    simp

theorem scanEvals_ok_iff (f : Int → Int → Option GoError) (final : Result) :
    ∀ (l acc : List Eval),
      (scanEvals f final l acc).1 = .ret none ↔
        final = .ret none ∧ ∀ p ∈ l, f p.2 p.1 = none := by
  intro l
  induction l with
  | nil => intro acc; simp [scanEvals]
  | cons p rest ih =>
    intro acc
    obtain ⟨w, k⟩ := p
    cases hp : f k w with
    | some err => simp [scanEvals, hp]
    | none => simp [scanEvals, hp, ih]

theorem scanEvals_first (f : Int → Int → Option GoError) (final : Result) (w : Int)
    (e1 : GoError) (h1 : f 1 w = some e1) :
    ∀ (ws : List Int) (acc : List Eval), (w, 3) ∉ acc → (w, 1) ∉ acc →
      (w, 3) ∉ (scanEvals f final (ws.flatMap evalsFor) acc).2 ∧
      ((w, 1) ∈ (scanEvals f final (ws.flatMap evalsFor) acc).2 →
        (scanEvals f final (ws.flatMap evalsFor) acc).1 = .ret (some (.condition 1 e1))) := by
  intro ws
  induction ws with
  | nil => intro acc h3 h1'; simp [scanEvals, h3, h1']
  | cons v rest ih =>
    intro acc h3 h1'
    by_cases hv : v = w
    · subst hv
      simp [List.flatMap_cons, evalsFor, scanEvals, h1, h3]
    · have hne : ¬ w = v := fun h => hv h.symm
      simp only [List.flatMap_cons, evalsFor, List.cons_append, List.nil_append, scanEvals]
      cases f 1 v with
      | some err => simp [h3, h1', hne]
      | none =>
        cases f 2 v with
        | some err => simp [h3, h1', hne]
        | none =>
          cases f 3 v with
          | some err => simp [h3, h1', hne]
          | none =>
            cases f 4 v with
            | some err => simp [h3, h1', hne]
            | none =>
              simp only []
              apply ih
              · simp [h3, hne]
              · simp [h1', hne]

/-! ## C3 -/

/-- C3 (amended): with the four checks given as arbitrary functions
`f k warehouse` (`k` the 1-based condition), for every configuration.  The run
on which no check fails evaluates the conditions 1, 2, 3, 4 on each warehouse
the loop reaches, warehouse after warehouse.  With the checks `f` the worker
evaluates the same pairs (warehouse, condition) in the same order and stops at
the first pair that fails: it returns the error of that pair under the pair's
condition index and evaluates nothing after it; when no pair fails the run is
the run on which no check fails.  It returns success if and only if the loop
ends and no check fails on a warehouse it reaches.  If condition 1 fails for a
warehouse, condition 3 is never evaluated for it, and a run that reaches that
warehouse is attributed to condition 1.  When the loop variable of worker
`0 ≤ t < T` does not overflow the 64-bit `int` (the first value of
`t, t+T, ...` not below `W` is below `2^63`), the warehouses reached are the
assigned ones `t+1, t+1+T, ...` up to `W`, ascending, and the run returns
success if and only if no check fails on an assigned warehouse. -/
theorem fail_fast (f : Int → Int → Option GoError) (W T t : Int) (fuel : Nat) :
    (∃ ws : List Int,
      (CheckWith (tracedChecks passAll) ⟨T, W⟩ t fuel []).2 = ws.flatMap evalsFor) ∧
    ((∀ p ∈ (CheckWith (tracedChecks passAll) ⟨T, W⟩ t fuel []).2, f p.2 p.1 = none) →
      CheckWith (tracedChecks f) ⟨T, W⟩ t fuel [] =
        CheckWith (tracedChecks passAll) ⟨T, W⟩ t fuel []) ∧
    (∀ (pre : List Eval) (w k : Int) (err : GoError) (post : List Eval),
      (CheckWith (tracedChecks passAll) ⟨T, W⟩ t fuel []).2 = pre ++ (w, k) :: post →
      (∀ p ∈ pre, f p.2 p.1 = none) → f k w = some err →
      CheckWith (tracedChecks f) ⟨T, W⟩ t fuel [] =
        (.ret (some (.condition k err)), pre ++ [(w, k)])) ∧
    ((CheckWith (tracedChecks f) ⟨T, W⟩ t fuel []).1 = .ret none ↔
      (CheckWith (tracedChecks passAll) ⟨T, W⟩ t fuel []).1 = .ret none ∧
        ∀ p ∈ (CheckWith (tracedChecks passAll) ⟨T, W⟩ t fuel []).2, f p.2 p.1 = none) ∧
    (∀ (w : Int) (e1 : GoError), f 1 w = some e1 →
      (w, 3) ∉ (CheckWith (tracedChecks f) ⟨T, W⟩ t fuel []).2 ∧
      ((w, 1) ∈ (CheckWith (tracedChecks f) ⟨T, W⟩ t fuel []).2 →
        (CheckWith (tracedChecks f) ⟨T, W⟩ t fuel []).1 = .ret (some (.condition 1 e1)))) ∧
    (1 ≤ T → 0 ≤ t → t < T → t + (strideCount W T t : Int) * T < 2 ^ 63 →
      strideCount W T t < fuel →
      CheckWith (tracedChecks passAll) ⟨T, W⟩ t fuel [] =
        (.ret none, (stride W T t).flatMap evalsFor) ∧
      (stride W T t).Pairwise (· < ·) ∧
      ((CheckWith (tracedChecks f) ⟨T, W⟩ t fuel []).1 = .ret none ↔
        ∀ w ∈ stride W T t, ∀ k ∈ [(1 : Int), 2, 3, 4], f k w = none)) := by
  obtain ⟨ws, final, h0, hf⟩ := CheckWith_traced ⟨T, W⟩ t fuel
  have hrun := hf f
  rw [h0, hrun]
  have hiff : ∀ l : List Int, (∀ p ∈ l.flatMap evalsFor, f p.2 p.1 = none) ↔
      ∀ w ∈ l, ∀ k ∈ [(1 : Int), 2, 3, 4], f k w = none := by
    intro l
    simp only [List.mem_flatMap, evalsFor]
    constructor
    · intro h w hw k hk
      simp only [List.mem_cons, List.mem_singleton, List.not_mem_nil, or_false] at hk
      rcases hk with rfl | rfl | rfl | rfl
      · exact h (w, 1) ⟨w, hw, by simp⟩
      · exact h (w, 2) ⟨w, hw, by simp⟩
      · exact h (w, 3) ⟨w, hw, by simp⟩
      · exact h (w, 4) ⟨w, hw, by simp⟩
    · rintro h ⟨w, k⟩ ⟨v, hv, hp⟩
      simp only [List.mem_cons, Prod.mk.injEq, List.not_mem_nil, or_false] at hp
      rcases hp with ⟨rfl, rfl⟩ | ⟨rfl, rfl⟩ | ⟨rfl, rfl⟩ | ⟨rfl, rfl⟩
      · exact h _ hv 1 (by simp)
      · exact h _ hv 2 (by simp)
      · exact h _ hv 3 (by simp)
      · exact h _ hv 4 (by simp)
  refine ⟨⟨ws, rfl⟩, ?_, ?_, ?_, ?_, ?_⟩
  · intro h
    rw [scanEvals_pass f final _ _ h]
    simp
  · intro pre w k err post hsplit hpre hk
    simp only at hsplit
    rw [hsplit, scanEvals_fail f final w k err post hk pre [] hpre]
    simp
  · exact scanEvals_ok_iff f final _ _
  · intro w e1 h1
    exact scanEvals_first f final w e1 h1 _ [] (by simp) (by simp)
  · intro hT ht0 htT hfit hfuel
    have hpass : CheckWith (tracedChecks passAll) ⟨T, W⟩ t fuel [] =
        (.ret none, (stride W T t).flatMap evalsFor) := by
      rw [CheckWith_eq_runSeq_fits _ hT ht0 htT hfit fuel hfuel, runSeq_traced,
        scanEvals_pass passAll _ _ _ (fun _ _ => rfl)]
      simp
    rw [h0] at hpass
    have hfin : final = .ret none := congrArg Prod.fst hpass
    have hws : ws.flatMap evalsFor = (stride W T t).flatMap evalsFor := congrArg Prod.snd hpass
    refine ⟨by rw [hfin, hws], stride_pairwise_lt hT, ?_⟩
    rw [scanEvals_ok_iff, hws, hiff]
    simp [hfin]

/-- Witness of C3: worker 1 of 3 over ten warehouses reaches 2, 5, 8; conditions
1 and 3 both fail on warehouse 5.  The run evaluates the four conditions on
warehouse 2, then condition 1 on warehouse 5, and returns the error of
condition 1. -/
theorem fail_fast_witness :
    CheckWith (tracedChecks sampleChecks) ⟨3, 10⟩ 1 11 [] =
      (.ret (some (.condition 1 (.nonzero "c1" 5 7))),
        [(2, 1), (2, 2), (2, 3), (2, 4)] ++ [(5, 1)]) :=
  (fail_fast sampleChecks 10 3 1 11).2.2.1 [(2, 1), (2, 2), (2, 3), (2, 4)] 5 1
    (.nonzero "c1" 5 7) [(5, 2), (5, 3), (5, 4), (8, 1), (8, 2), (8, 3), (8, 4)]
    (by decide) (by decide) (by decide)

/-- C3 as stated fails when `i += Threads` overflows the 64-bit `int`: with
2 warehouses and `2^63 - 1` workers, the only warehouse assigned to worker 1 is
2 and no check fails on it, yet the worker goes on to warehouse 1, where
condition 1 fails, and returns that error: the warehouses are not taken in
ascending order and the run fails although no check fails on an assigned
warehouse. -/
theorem fail_fast_overflow :
    CheckWith (tracedChecks overflowChecks) ⟨2 ^ 63 - 1, 2⟩ 1 4 [] =
      (.ret (some (.condition 1 (.nonzero "c1" 1 7))),
        [(2, 1), (2, 2), (2, 3), (2, 4), (1, 1)]) ∧
    stride 2 (2 ^ 63 - 1) 1 = [2] ∧
    (∀ x : Int, (∃ i : Int, 0 ≤ i ∧ i < 2 ∧ i % (2 ^ 63 - 1) = 1 ∧ x = Int.tmod i 2 + 1) →
      x = 2) ∧
    (∀ k ∈ [(1 : Int), 2, 3, 4], overflowChecks k 2 = none) ∧
    ¬ ((CheckWith (tracedChecks overflowChecks) ⟨2 ^ 63 - 1, 2⟩ 1 4 []).1 = .ret none ↔
      ∀ w ∈ stride 2 (2 ^ 63 - 1) 1, ∀ k ∈ [(1 : Int), 2, 3, 4], overflowChecks k w = none) := by
  have hrun : CheckWith (tracedChecks overflowChecks) ⟨2 ^ 63 - 1, 2⟩ 1 4 [] =
      (.ret (some (.condition 1 (.nonzero "c1" 1 7))),
        [(2, 1), (2, 2), (2, 3), (2, 4), (1, 1)]) := by decide
  have hstride : stride 2 (2 ^ 63 - 1) 1 = [2] := by decide
  have hpass : ∀ k ∈ [(1 : Int), 2, 3, 4], overflowChecks k 2 = none := by decide
  refine ⟨hrun, hstride, ?_, hpass, ?_⟩
  · rintro x ⟨i, hi0, hi2, hmod, rfl⟩
    have hcases : i = 0 ∨ i = 1 := by omega
    rcases hcases with rfl | rfl
    · exact absurd hmod (by decide)
    · decide
  · rw [hrun, hstride]
    intro h
    have := h.2 (by simpa using hpass)
    simp at this

/-! ## The scan of the rows -/

theorem scanRows_ok_iff (expr : String) (w : Int) (rs : List Rat) :
    scanRows expr w (rs.map .ok) none = none ↔ ∀ r ∈ rs, r = 0 := by
  induction rs with
  | nil => simp [scanRows]
  | cons r rest ih =>
    by_cases hr : r = 0
    · simp [scanRows, hr, ih]
    · simp [scanRows, hr]

theorem scanRows_first_nonzero (expr : String) (w : Int) (d : Rat) (hd : d ≠ 0)
    (rest : List (Except ConnError Rat)) (final : Option ConnError) :
    ∀ zeros : List (Except ConnError Rat), (∀ z ∈ zeros, z = .ok 0) →
      scanRows expr w (zeros ++ .ok d :: rest) final = some (.nonzero expr w d) := by
  intro zeros
  induction zeros with
  | nil => intro _; simp [scanRows, hd]
  | cons z zs ih =>
    intro h
    have hz : z = .ok 0 := h z (List.mem_cons_self _ _)
    subst hz
    simp only [List.cons_append, scanRows, ne_eq, not_true_eq_false, if_false]
    exact ih fun x hx => h x (List.mem_cons_of_mem _ hx)

theorem scanRows_first_error (expr : String) (w : Int) (e : ConnError)
    (rest : List (Except ConnError Rat)) (final : Option ConnError) :
    ∀ zeros : List (Except ConnError Rat), (∀ z ∈ zeros, z = .ok 0) →
      scanRows expr w (zeros ++ .error e :: rest) final = some (.driver e) := by
  intro zeros
  induction zeros with
  | nil => intro _; simp [scanRows]
  | cons z zs ih =>
    intro h
    have hz : z = .ok 0 := h z (List.mem_cons_self _ _)
    subst hz
    simp only [List.cons_append, scanRows, ne_eq, not_true_eq_false, if_false]
    exact ih fun x hx => h x (List.mem_cons_of_mem _ hx)

/-! ## C4 -/

/-- C4: for each of the four checks and every warehouse, when the query
succeeds and delivers the differences `rs`, every row scanned without error
and `rows.Err()` nil, the check passes if and only if every difference is 0;
it passes on zero rows; and when some difference is non-zero it fails with the
error that carries the warehouse and the first non-zero difference. -/
theorem zero_test (q : QueryId) (conn : Conn) (w : Int) (log : List Call) (rs : List Rat)
    (hq : conn log q (q.args w) = .ok ⟨rs.map .ok, none⟩) :
    ((checkOf q conn w log).1 = none ↔ ∀ r ∈ rs, r = 0) ∧
    (rs = [] → (checkOf q conn w log).1 = none) ∧
    (∀ (zeros : List Rat) (d : Rat) (rest : List Rat), rs = zeros ++ d :: rest →
      (∀ z ∈ zeros, z = 0) → d ≠ 0 →
      (checkOf q conn w log).1 = some (.nonzero q.expr w d)) ∧
    (checkOf q conn w log).2 = log ++ [(q, q.args w)] := by
  have hout : (checkOf q conn w log).1 = scanRows q.expr w (rs.map .ok) none := by
    rw [checkOf_eq]
    simp only [outcome, hq]
  refine ⟨?_, ?_, ?_, ?_⟩
  · rw [hout, scanRows_ok_iff]
  · intro h
    rw [hout, h]
    rfl
  · intro zeros d rest hrs hz hd
    rw [hout, hrs, List.map_append, List.map_cons]
    apply scanRows_first_nonzero _ _ _ hd
    intro z hz'
    obtain ⟨a, ha, rfl⟩ := List.mem_map.1 hz'
    rw [hz a ha]
  · rw [checkOf_eq]

/-- Witness of C4: condition 4 on warehouse 7 when the rows are 0 and 3. -/
theorem zero_test_witness :
    (checkCondition4 sampleRowsConn 7 []).1 =
      some (.nonzero "max(no_o_id)-min(no_o_id)+1 - count(*)" 7 3) :=
  (zero_test .cond4 sampleRowsConn 7 [] [0, 3] rfl).2.2.1 [0] 3 [] rfl (by simp) (by norm_num)

/-! ## Every issued query is accounted for -/

theorem args_injective (q : QueryId) (w v : Int) (h : q.args w = q.args v) : w = v := by
  cases q <;> simp [QueryId.args] at h <;> exact h

theorem Accounts_single (conn : Conn) (log : List Call) (q : QueryId) (w : Int)
    (err : GoError) (h : outcome conn log q w = some err) :
    Accounts conn log [(q, q.args w)] (.ret (some (.condition q.index err))) := by
  refine ⟨w, rfl, ?_⟩
  simp [h]

theorem Accounts_cons (conn : Conn) (log : List Call) (q : QueryId) (w : Int)
    (rest : List Call) (res : Result) (h : outcome conn log q w = none)
    (hrest : Accounts conn (log ++ [(q, q.args w)]) rest res) :
    Accounts conn log ((q, q.args w) :: rest) res := by
  refine ⟨w, rfl, ?_⟩
  simp only [h]
  exact hrest

theorem checkLoop_accounts (conn : Conn) (cfg : Config) :
    ∀ (fuel : Nat) (i : Int) (log : List Call), ∃ new,
      (checkLoop [checkCondition1 conn, checkCondition2 conn, checkCondition3 conn,
        checkCondition4 conn] cfg fuel i log).2 = log ++ new ∧
      Accounts conn log new
        (checkLoop [checkCondition1 conn, checkCondition2 conn, checkCondition3 conn,
          checkCondition4 conn] cfg fuel i log).1 := by
  intro fuel
  induction fuel with
  | zero =>
    intro i log
    exact ⟨[], by simp [checkLoop], by simp [checkLoop, Accounts]⟩
  | succ n ih =>
    intro i log
    simp only [checkLoop]
    split
    · split
      · exact ⟨[], by simp, by simp [Accounts]⟩
      · rw [runChecks_real]
        generalize wrap64 (Int.tmod i cfg.Warehouses + 1) = w
        cases h1 : outcome conn log .cond1 w with
        | some err =>
          exact ⟨[(.cond1, [w])], rfl, Accounts_single conn log .cond1 w err h1⟩
        | none =>
          simp only []
          cases h2 : outcome conn (log ++ [(.cond1, [w])]) .cond2 w with
          | some err =>
            refine ⟨[(.cond1, [w]), (.cond2, [w])], rfl, ?_⟩
            exact Accounts_cons conn log .cond1 w _ _ h1
              (Accounts_single conn _ .cond2 w err h2)
          | none =>
            simp only []
            cases h3 : outcome conn (log ++ [(.cond1, [w]), (.cond2, [w])]) .cond3 w with
            | some err =>
              refine ⟨[(.cond1, [w]), (.cond2, [w]), (.cond3, [w])], rfl, ?_⟩
              refine Accounts_cons conn log .cond1 w _ _ h1 ?_
              refine Accounts_cons conn _ .cond2 w _ _ h2 ?_
              have e : log ++ [(QueryId.cond1, QueryId.cond1.args w)] ++
                  [(QueryId.cond2, QueryId.cond2.args w)] =
                  log ++ [(.cond1, [w]), (.cond2, [w])] := by simp [QueryId.args]
              rw [e]
              exact Accounts_single conn _ .cond3 w err h3
            | none =>
              simp only []
              have e2 : log ++ [(QueryId.cond1, QueryId.cond1.args w)] ++
                  [(QueryId.cond2, QueryId.cond2.args w)] =
                  log ++ [(.cond1, [w]), (.cond2, [w])] := by simp [QueryId.args]
              have e3 : log ++ [(QueryId.cond1, QueryId.cond1.args w)] ++
                  [(QueryId.cond2, QueryId.cond2.args w)] ++
                  [(QueryId.cond3, QueryId.cond3.args w)] =
                  log ++ [(.cond1, [w]), (.cond2, [w]), (.cond3, [w])] := by
                simp [QueryId.args]
              cases h4 : outcome conn (log ++ [(.cond1, [w]), (.cond2, [w]), (.cond3, [w])])
                  .cond4 w with
              | some err =>
                refine ⟨callsFor w, rfl, ?_⟩
                refine Accounts_cons conn log .cond1 w _ _ h1 ?_
                refine Accounts_cons conn _ .cond2 w _ _ h2 ?_
                refine Accounts_cons conn _ .cond3 w _ _ (by rw [e2]; exact h3) ?_
                rw [e3]
                exact Accounts_single conn _ .cond4 w err h4
              | none =>
                simp only []
                obtain ⟨new, hnew, hacc⟩ := ih (wrap64 (i + cfg.Threads)) (log ++ callsFor w)
                refine ⟨callsFor w ++ new, by rw [hnew, List.append_assoc], ?_⟩
                refine Accounts_cons conn log .cond1 w _ _ h1 ?_
                refine Accounts_cons conn _ .cond2 w _ _ h2 ?_
                refine Accounts_cons conn _ .cond3 w _ _ (by rw [e2]; exact h3) ?_
                refine Accounts_cons conn _ .cond4 w _ _ (by rw [e3]; exact h4) ?_
                have e4 : log ++ [(QueryId.cond1, QueryId.cond1.args w)] ++
                    [(QueryId.cond2, QueryId.cond2.args w)] ++
                    [(QueryId.cond3, QueryId.cond3.args w)] ++
                    [(QueryId.cond4, QueryId.cond4.args w)] = log ++ callsFor w := by
                  simp [QueryId.args, callsFor]
                rw [e4]
                exact hacc
    · exact ⟨[], by simp, by simp [Accounts]⟩

theorem Check_accounts (conn : Conn) (cfg : Config) (t : Int) (fuel : Nat) (log : List Call) :
    ∃ new, (Check conn cfg t fuel log).2 = log ++ new ∧
      Accounts conn log new (Check conn cfg t fuel log).1 := by
  unfold Check CheckWith
  split
  · exact ⟨[], by simp, by simp [Accounts]⟩
  · exact checkLoop_accounts conn cfg fuel _ log

theorem Accounts_split (conn : Conn) (q : QueryId) (w : Int) (post : List Call)
    (res : Result) (err : GoError) :
    ∀ (pre log : List Call), Accounts conn log (pre ++ (q, q.args w) :: post) res →
      outcome conn (log ++ pre) q w = some err →
      post = [] ∧ res = .ret (some (.condition q.index err)) := by
  intro pre
  induction pre with
  | nil =>
    intro log hacc hout
    obtain ⟨v, hv, hm⟩ := hacc
    have hvw : w = v := args_injective q w v hv
    subst hvw
    simp only [List.append_nil] at hout
    simp only [hout] at hm
    exact hm
  | cons p rest ih =>
    intro log hacc hout
    obtain ⟨v, hv, hm⟩ := hacc
    cases hp : outcome conn log p.1 v with
    | some e =>
      simp only [hp] at hm
      exact absurd hm.1 (by simp)
    | none =>
      simp only [hp] at hm
      apply ih (log ++ [p]) hm
      rw [List.append_assoc]
      exact hout

/-- What a run returns once a check has failed: that check issued the last
query of the run, and the run returns its error under its condition index. -/
theorem Check_split (conn : Conn) (cfg : Config) (t : Int) (fuel : Nat) (log pre : List Call)
    (q : QueryId) (w : Int) (post : List Call) (err : GoError)
    (hlog : (Check conn cfg t fuel log).2 = log ++ pre ++ (q, q.args w) :: post)
    (hout : outcome conn (log ++ pre) q w = some err) :
    post = [] ∧ (Check conn cfg t fuel log).1 = .ret (some (.condition q.index err)) := by
  obtain ⟨new, hnew, hacc⟩ := Check_accounts conn cfg t fuel log
  rw [hnew, List.append_assoc] at hlog
  have hnew2 : new = pre ++ (q, q.args w) :: post := List.append_cancel_left hlog
  rw [hnew2] at hacc
  exact Accounts_split conn q w post _ err pre log hacc hout

/-! ## C5 -/

/-- C5 (amended): when the query of a check on a warehouse returns an
interface error `e`, `Check` returns the error of condition `k` (the 1-based
index of that check) built from the statement text and `e`; when the query
succeeds and scanning a row fails with `e` after rows that were all zero,
`Check` returns the error of condition `k` built from `e` alone.  The returned
error names the condition; the warehouse is no part of it. -/
theorem fault_attribution (conn : Conn) (cfg : Config) (t : Int) (fuel : Nat)
    (log pre : List Call) (q : QueryId) (w : Int) (post : List Call) (e : ConnError)
    (hlog : (Check conn cfg t fuel log).2 = log ++ pre ++ (q, q.args w) :: post) :
    (conn (log ++ pre) q (q.args w) = .error e →
      (Check conn cfg t fuel log).1 =
        .ret (some (.condition q.index (.exec q.sql (.driver e))))) ∧
    (∀ (rows : Rows) (zeros rest : List (Except ConnError Rat)),
      conn (log ++ pre) q (q.args w) = .ok rows → rows.scans = zeros ++ .error e :: rest →
      (∀ z ∈ zeros, z = .ok 0) →
      (Check conn cfg t fuel log).1 = .ret (some (.condition q.index (.driver e)))) := by
  constructor
  · intro herr
    have hout : outcome conn (log ++ pre) q w = some (.exec q.sql (.driver e)) := by
      simp only [outcome, herr]
    exact (Check_split conn cfg t fuel log pre q w post _ hlog hout).2
  · intro rows zeros rest hok hscans hz
    have hout : outcome conn (log ++ pre) q w = some (.driver e) := by
      simp only [outcome, hok, hscans]
      exact scanRows_first_error _ _ _ _ _ zeros hz
    exact (Check_split conn cfg t fuel log pre q w post _ hlog hout).2

/-- Witness of C5: the rows of condition 2 cannot be decoded; worker 0 of 2
fails on its first warehouse with the error of condition 2. -/
theorem fault_attribution_witness :
    (Check badRowConn ⟨2, 2⟩ 0 3 []).1 =
      .ret (some (.condition 2 (.driver (.other "converting NULL to float64")))) :=
  (fault_attribution badRowConn ⟨2, 2⟩ 0 3 [] [(.cond1, [1])] .cond2 1 []
    (.other "converting NULL to float64") (by decide)).2
    ⟨[.ok 0, .error (.other "converting NULL to float64")], none⟩ [.ok 0] [] rfl rfl (by simp)

/-- C5 as stated fails: the error of an interface fault does not identify the
warehouse.  When every query times out, worker 0 of 2 fails on warehouse 1 and
worker 1 fails on warehouse 2, and both return the same error; no function of
the returned error gives back the warehouse. -/
theorem fault_error_lacks_warehouse :
    Check failConn ⟨2, 2⟩ 0 3 [] =
      (.ret (some (.condition 1 (.exec QueryId.cond1.sql (.driver .deadlineExceeded)))),
        [(.cond1, [1])]) ∧
    Check failConn ⟨2, 2⟩ 1 3 [] =
      (.ret (some (.condition 1 (.exec QueryId.cond1.sql (.driver .deadlineExceeded)))),
        [(.cond1, [2])]) ∧
    ¬ ∃ warehouseOf : GoError → Int, ∀ (t w : Int) (err : GoError),
      Check failConn ⟨2, 2⟩ t 3 [] = (.ret (some err), [(.cond1, [w])]) →
        warehouseOf err = w := by
  have h0 : Check failConn ⟨2, 2⟩ 0 3 [] =
      (.ret (some (.condition 1 (.exec QueryId.cond1.sql (.driver .deadlineExceeded)))),
        [(.cond1, [1])]) := by decide
  have h1 : Check failConn ⟨2, 2⟩ 1 3 [] =
      (.ret (some (.condition 1 (.exec QueryId.cond1.sql (.driver .deadlineExceeded)))),
        [(.cond1, [2])]) := by decide
  refine ⟨h0, h1, ?_⟩
  rintro ⟨g, hg⟩
  have e0 := hg 0 1 _ h0
  have e1 := hg 1 2 _ h1
  rw [e0] at e1
  exact absurd e1 (by decide)

/-! ## C6 -/

/-- C6: if a query that `Check` issued returned an error `e` (a cancelled
context included), that query is the last one of the run: no query follows it,
neither a retry nor a scan of a later condition or warehouse.  The run returns
an error that is no consistency violation and whose message is the one of the
condition, around the statement text and the message of `e`. -/
theorem no_retry (conn : Conn) (cfg : Config) (t : Int) (fuel : Nat)
    (log pre : List Call) (q : QueryId) (w : Int) (post : List Call) (e : ConnError)
    (hlog : (Check conn cfg t fuel log).2 = log ++ pre ++ (q, q.args w) :: post)
    (herr : conn (log ++ pre) q (q.args w) = .error e) :
    post = [] ∧
    ∃ err, (Check conn cfg t fuel log).1 = .ret (some err) ∧
      err.isViolation = false ∧
      ∀ fmtF, err.render fmtF =
        "check condition " ++ toString q.index ++ " failed " ++
          ("Exec " ++ q.sql ++ " failed " ++ e.render) := by
  have hout : outcome conn (log ++ pre) q w = some (.exec q.sql (.driver e)) := by
    simp only [outcome, herr]
  obtain ⟨hpost, hres⟩ := Check_split conn cfg t fuel log pre q w post _ hlog hout
  exact ⟨hpost, _, hres, rfl, fun _ => rfl⟩

/-- Witness of C6: the context is cancelled after five queries; worker 0 of 1
over three warehouses issues a sixth query, which fails, and stops there. -/
theorem no_retry_witness :
    (Check cancelConn ⟨1, 3⟩ 0 4 []).2 =
      [] ++ (callsFor 1 ++ [(.cond1, [2])]) ++ (.cond2, QueryId.cond2.args 2) :: [] ∧
    ([] : List Call) = [] ∧
    ∃ err, (Check cancelConn ⟨1, 3⟩ 0 4 []).1 = .ret (some err) ∧
      err.isViolation = false ∧
      ∀ fmtF, err.render fmtF =
        "check condition " ++ toString QueryId.cond2.index ++ " failed " ++
          ("Exec " ++ QueryId.cond2.sql ++ " failed " ++ ConnError.canceled.render) :=
  ⟨by decide,
    no_retry cancelConn ⟨1, 3⟩ 0 4 [] (callsFor 1 ++ [(QueryId.cond1, [2])]) QueryId.cond2 2 []
      ConnError.canceled (by decide) (by rfl)⟩

/-! ## C10 -/

theorem checkLoop_no_fault {σ : Type} (checks : List (CheckFn σ)) (cfg : Config)
    (hW : cfg.Warehouses ≠ 0) :
    ∀ (fuel : Nat) (i : Int) (s : σ), (checkLoop checks cfg fuel i s).1 ≠ .divideByZero := by
  intro fuel
  induction fuel with
  | zero => intro i s; simp [checkLoop]
  | succ n ih =>
    intro i s
    simp only [checkLoop, hW, if_false]
    split
    · rcases hrc : runChecks checks (wrap64 (Int.tmod i cfg.Warehouses + 1)) 0 s
        with ⟨_ | err, s1⟩
      · exact ih _ _
      · simp
    · simp

/-- C10: for every `W ≥ 1` and `threadID ≥ 0`, `Check` faults on a modulo by
zero if and only if the worker count `T` is 0; with `T = 0` the fault comes
before any query is issued, and with `T ≠ 0` (so with `T ≥ 1`) neither
`threadID % T` nor `i % W` has a zero divisor. -/
theorem modulo_by_zero_iff (conn : Conn) (W T threadID : Int) (fuel : Nat) (log : List Call)
    (hW : 1 ≤ W) (ht : 0 ≤ threadID) :
    ((Check conn ⟨T, W⟩ threadID fuel log).1 = .divideByZero ↔ T = 0) ∧
    (T = 0 → (Check conn ⟨T, W⟩ threadID fuel log).2 = log) := by
  have _ := ht
  have hW0 : (⟨T, W⟩ : Config).Warehouses ≠ 0 := by
    show W ≠ 0
    omega
  constructor
  · constructor
    · intro h
      by_contra hT
      simp only [Check, CheckWith, hT, if_false] at h
      exact checkLoop_no_fault _ _ hW0 _ _ _ h
    · intro hT
      simp [Check, CheckWith, hT]
  · intro hT
    simp [Check, CheckWith, hT]

/-- Witness of C10: no workers configured, one warehouse. -/
theorem modulo_by_zero_witness :
    ((Check emptyConn ⟨0, 1⟩ 0 5 []).1 = .divideByZero ↔ (0 : Int) = 0) ∧
    ((0 : Int) = 0 → (Check emptyConn ⟨0, 1⟩ 0 5 []).2 = []) :=
  modulo_by_zero_iff emptyConn 1 0 0 5 [] (by decide) (by decide)

/-! ## Maximum and minimum of a group -/

theorem foldl_max_spec : ∀ (xs : List Int) (a : Int),
    xs.foldl max a ∈ a :: xs ∧ a ≤ xs.foldl max a ∧ ∀ x ∈ xs, x ≤ xs.foldl max a := by
  intro xs
  induction xs with
  | nil => intro a; simp
  | cons y ys ih =>
    intro a
    obtain ⟨h1, h2, h3⟩ := ih (max a y)
    simp only [List.foldl_cons]
    refine ⟨?_, le_trans (le_max_left a y) h2, ?_⟩
    · rcases List.mem_cons.1 h1 with h | h
      · rcases max_choice a y with hm | hm
        · rw [h, hm]; simp
        · rw [h, hm]; simp
      · simp [h]
    · intro x hx
      rcases List.mem_cons.1 hx with h | h
      · rw [h]; exact le_trans (le_max_right a y) h2
      · exact h3 x h

theorem foldl_min_spec : ∀ (xs : List Int) (a : Int),
    xs.foldl min a ∈ a :: xs ∧ xs.foldl min a ≤ a ∧ ∀ x ∈ xs, xs.foldl min a ≤ x := by
  intro xs
  induction xs with
  | nil => intro a; simp
  | cons y ys ih =>
    intro a
    obtain ⟨h1, h2, h3⟩ := ih (min a y)
    simp only [List.foldl_cons]
    refine ⟨?_, le_trans h2 (min_le_left a y), ?_⟩
    · rcases List.mem_cons.1 h1 with h | h
      · rcases min_choice a y with hm | hm
        · rw [h, hm]; simp
        · rw [h, hm]; simp
      · simp [h]
    · intro x hx
      rcases List.mem_cons.1 hx with h | h
      · rw [h]; exact le_trans h2 (min_le_right a y)
      · exact h3 x h

theorem listMax_spec (ids : List Int) (hne : ids ≠ []) :
    listMax ids ∈ ids ∧ ∀ x ∈ ids, x ≤ listMax ids := by
  cases ids with
  | nil => exact absurd rfl hne
  | cons a xs =>
    obtain ⟨h1, h2, h3⟩ := foldl_max_spec xs a
    refine ⟨h1, ?_⟩
    intro x hx
    rcases List.mem_cons.1 hx with h | h
    · rw [h]; exact h2
    · exact h3 x h

theorem listMin_spec (ids : List Int) (hne : ids ≠ []) :
    listMin ids ∈ ids ∧ ∀ x ∈ ids, listMin ids ≤ x := by
  cases ids with
  | nil => exact absurd rfl hne
  | cons a xs =>
    obtain ⟨h1, h2, h3⟩ := foldl_min_spec xs a
    refine ⟨h1, ?_⟩
    intro x hx
    rcases List.mem_cons.1 hx with h | h
    · rw [h]; exact h2
    · exact h3 x h

theorem delta3_spec (ids : List Int) (hne : ids ≠ []) (hnd : ids.Nodup) :
    0 ≤ delta3 ids ∧
    (delta3 ids = 0 ↔ ∀ x, x ∈ ids ↔ listMin ids ≤ x ∧ x ≤ listMax ids) := by
  obtain ⟨hmaxmem, hmax⟩ := listMax_spec ids hne
  obtain ⟨_, hmin⟩ := listMin_spec ids hne
  have hle : listMin ids ≤ listMax ids := hmin _ hmaxmem
  have hsub : ids.toFinset ⊆ Finset.Icc (listMin ids) (listMax ids) := by
    intro x hx
    rw [List.mem_toFinset] at hx
    exact Finset.mem_Icc.2 ⟨hmin x hx, hmax x hx⟩
  have hcardS : ids.toFinset.card = ids.length := List.toFinset_card_of_nodup hnd
  have hcardI : ((Finset.Icc (listMin ids) (listMax ids)).card : Int) =
      listMax ids + 1 - listMin ids := by
    rw [Int.card_Icc, Int.toNat_of_nonneg (by omega)]
  have hcard : ids.toFinset.card ≤ (Finset.Icc (listMin ids) (listMax ids)).card :=
    Finset.card_le_card hsub
  have hcard2 : (ids.length : Int) ≤ listMax ids + 1 - listMin ids := by
    rw [← hcardI, ← hcardS]
    exact_mod_cast hcard
  constructor
  · unfold delta3; omega
  · constructor
    · intro h0
      have hge : (Finset.Icc (listMin ids) (listMax ids)).card ≤ ids.toFinset.card := by
        have : ((Finset.Icc (listMin ids) (listMax ids)).card : Int) ≤
            (ids.toFinset.card : Int) := by
          rw [hcardI, hcardS]
          unfold delta3 at h0
          omega
        exact_mod_cast this
      have heq := Finset.eq_of_subset_of_card_le hsub hge
      intro x
      rw [← List.mem_toFinset, heq, Finset.mem_Icc]
    · intro h
      have heq : ids.toFinset = Finset.Icc (listMin ids) (listMax ids) := by
        ext x
        rw [List.mem_toFinset, Finset.mem_Icc]
        exact h x
      have : (ids.length : Int) = listMax ids + 1 - listMin ids := by
        rw [← hcardI, ← heq, hcardS]
      unfold delta3
      omega

/-! ## Condition 3 on a dataset -/

theorem checkCondition3_db (db : Database) (w : Int) (log : List Call) :
    (checkCondition3 (dbConn db) w log).1 =
      scanRows "max(no_o_id)-min(no_o_id)+1 - count(*)" w
        (((sqlCond3 db w).map fun (x : Int) => (x : Rat)).map .ok) none := by
  simp only [checkCondition3, dbConn, List.map_map]
  rfl

theorem delta3_mem_sqlCond3 (db : Database) (w d : Int) (hne : newOrderIds db w d ≠ []) :
    delta3 (newOrderIds db w d) ∈ sqlCond3 db w := by
  have hfilter : (db.new_order.filter fun r => r.no_w_id = w ∧ r.no_d_id = d) =
      ((db.new_order.filter fun r => r.no_w_id = w).filter fun r => r.no_d_id = d) := by
    rw [List.filter_filter]
    congr 1
    funext r
    simp [and_comm]
  unfold sqlCond3
  simp only [List.mem_map, List.mem_dedup]
  refine ⟨d, ?_, ?_⟩
  · unfold newOrderIds at hne
    rw [Ne, List.map_eq_nil_iff, List.filter_eq_nil_iff] at hne
    push_neg at hne
    obtain ⟨r, hr, hp⟩ := hne
    simp only [decide_eq_true_eq] at hp
    exact ⟨r, List.mem_filter.2 ⟨hr, by simp [hp.1]⟩, hp.2⟩
  · unfold newOrderIds
    rw [hfilter]

/-! ## C7 -/

/-- C7: for every district whose new-order rows carry a non-empty list of
distinct order ids, the value that the statement of `checkCondition3` computes
for it, max - min + 1 - count (where max and min are the largest and the
smallest id), is non-negative, and it is 0 if and only if the ids are exactly
the integers from min to max.  A district with a non-zero value makes the
check fail; the check passes if and only if every district of the warehouse
has the value 0.  The ids 1, 2, 4 give 1 and the check fails with that delta;
the ids 1, 2, 3 give 0 and the check passes. -/
theorem condition3_density (db : Database) (w d : Int) (log : List Call)
    (hne : newOrderIds db w d ≠ []) (hnd : (newOrderIds db w d).Nodup) :
    delta3 (newOrderIds db w d) ∈ sqlCond3 db w ∧
    (listMax (newOrderIds db w d) ∈ newOrderIds db w d ∧
      ∀ x ∈ newOrderIds db w d, x ≤ listMax (newOrderIds db w d)) ∧
    (listMin (newOrderIds db w d) ∈ newOrderIds db w d ∧
      ∀ x ∈ newOrderIds db w d, listMin (newOrderIds db w d) ≤ x) ∧
    0 ≤ delta3 (newOrderIds db w d) ∧
    (delta3 (newOrderIds db w d) = 0 ↔
      ∀ x, x ∈ newOrderIds db w d ↔
        listMin (newOrderIds db w d) ≤ x ∧ x ≤ listMax (newOrderIds db w d)) ∧
    (delta3 (newOrderIds db w d) ≠ 0 → (checkCondition3 (dbConn db) w log).1 ≠ none) ∧
    ((checkCondition3 (dbConn db) w log).1 = none ↔ ∀ δ ∈ sqlCond3 db w, δ = 0) ∧
    (newOrderIds gapDb 1 1 = [1, 2, 4] ∧ delta3 [1, 2, 4] = 1 ∧
      (checkCondition3 (dbConn gapDb) 1 log).1 =
        some (.nonzero "max(no_o_id)-min(no_o_id)+1 - count(*)" 1 1)) ∧
    (newOrderIds denseDb 1 1 = [1, 2, 3] ∧ delta3 [1, 2, 3] = 0 ∧
      (checkCondition3 (dbConn denseDb) 1 log).1 = none) := by
  have hpass : (checkCondition3 (dbConn db) w log).1 = none ↔ ∀ δ ∈ sqlCond3 db w, δ = 0 := by
    rw [checkCondition3_db, scanRows_ok_iff]
    simp
  refine ⟨delta3_mem_sqlCond3 db w d hne, listMax_spec _ hne, listMin_spec _ hne,
    (delta3_spec _ hne hnd).1, (delta3_spec _ hne hnd).2, ?_, hpass, ?_, ?_⟩
  · intro hd hnone
    exact hd (hpass.1 hnone _ (delta3_mem_sqlCond3 db w d hne))
  · refine ⟨by decide, by decide, ?_⟩
    rw [checkCondition3_db]
    decide
  · refine ⟨by decide, by decide, ?_⟩
    rw [checkCondition3_db]
    decide

/-- Witness of C7: the district with the new orders 1, 2, 4. -/
theorem condition3_density_witness :
    newOrderIds gapDb 1 1 ≠ [] ∧ (newOrderIds gapDb 1 1).Nodup ∧
    0 ≤ delta3 (newOrderIds gapDb 1 1) ∧
    (delta3 (newOrderIds gapDb 1 1) ≠ 0 → (checkCondition3 (dbConn gapDb) 1 []).1 ≠ none) :=
  ⟨by decide, by decide,
    (condition3_density gapDb 1 1 [] (by decide) (by decide)).2.2.2.1,
    (condition3_density gapDb 1 1 [] (by decide) (by decide)).2.2.2.2.2.1⟩

/-! ## Condition 4 on a dataset -/

theorem olCount_eq (db : Database) (w d : Int) :
    (((db.order_line.filter fun l => l.ol_w_id = w).filter fun l => l.ol_d_id = d).length : Int) =
      actualLines db w d := by
  unfold actualLines
  rw [List.filter_filter]
  congr 2
  apply List.filter_congr
  intro l _
  simp [and_comm]

theorem actualLines_pos_iff (db : Database) (w d : Int) :
    0 < actualLines db w d ↔ ∃ l ∈ db.order_line, l.ol_w_id = w ∧ l.ol_d_id = d := by
  unfold actualLines
  rw [Int.ofNat_pos, List.length_pos_iff_exists_mem]
  simp [List.mem_filter]

theorem mem_olKeys (db : Database) (w d : Int) :
    d ∈ ((db.order_line.filter fun l => l.ol_w_id = w).map fun l => l.ol_d_id).dedup ↔
      0 < actualLines db w d := by
  rw [actualLines_pos_iff, List.mem_dedup]
  simp only [List.mem_map, List.mem_filter, decide_eq_true_eq]
  constructor
  · rintro ⟨l, ⟨hl, hw⟩, hd⟩
    exact ⟨l, hl, hw, hd⟩
  · rintro ⟨l, hl, hw, hd⟩
    exact ⟨l, ⟨hl, hw⟩, hd⟩

theorem filter_keyed (g : Int → Int) (c : Prop) [Decidable c] (d : Int) :
    ∀ ks : List Int, ks.Nodup →
      ((ks.map fun k => (k, g k)).filter fun r => c ∧ r.1 = d) =
        if c ∧ d ∈ ks then [(d, g d)] else [] := by
  intro ks
  induction ks with
  | nil => intro _; simp
  | cons k rest ih =>
    intro hnd
    rw [List.nodup_cons] at hnd
    rw [List.map_cons, List.filter_cons, ih hnd.2]
    by_cases hc : c
    · by_cases hk : k = d
      · subst hk
        simp [hc, hnd.1]
      · have hk2 : ¬ d = k := fun h => hk h.symm
        simp [hc, hk, hk2]
    · simp [hc]

theorem flatMap_ite {α β : Type} (c : α → Prop) [DecidablePred c] (h : α → β) :
    ∀ l : List α, (l.flatMap fun a => if c a then [h a] else []) =
      (l.filter fun a => c a).map h := by
  intro l
  induction l with
  | nil => rfl
  | cons a rest ih =>
    rw [List.flatMap_cons, ih]
    by_cases hc : c a
    · simp [hc]
    · simp [hc]

theorem joined_eq (db : Database) (w : Int) :
    (db.orders.flatMap fun o =>
      ((olCounts db w).filter fun r => o.o_w_id = w ∧ r.1 = o.o_d_id).map fun r => (o, r)) =
    (db.orders.filter fun o => o.o_w_id = w ∧ 0 < actualLines db w o.o_d_id).map
      fun o => (o, (o.o_d_id, actualLines db w o.o_d_id)) := by
  rw [← flatMap_ite (fun o : OrdersRow => o.o_w_id = w ∧ 0 < actualLines db w o.o_d_id)
    (fun o => (o, (o.o_d_id, actualLines db w o.o_d_id)))]
  apply List.flatMap_congr
  intro o _
  unfold olCounts
  simp only
  rw [filter_keyed _ _ _ _ (List.nodup_dedup _), olCount_eq]
  by_cases hc : o.o_w_id = w ∧ 0 < actualLines db w o.o_d_id
  · have hk := (mem_olKeys db w o.o_d_id).2 hc.2
    rw [if_pos ⟨hc.1, hk⟩, if_pos hc]
    rfl
  · have hk : ¬ (o.o_w_id = w ∧ o.o_d_id ∈
        ((db.order_line.filter fun l => l.ol_w_id = w).map fun l => l.ol_d_id).dedup) :=
      fun h => hc ⟨h.1, (mem_olKeys db w o.o_d_id).1 h.2⟩
    rw [if_neg hk, if_neg hc]
    rfl

theorem listMax_const (l : List Int) (c : Int) (hne : l ≠ []) (h : ∀ x ∈ l, x = c) :
    listMax l = c :=
  h _ (listMax_spec l hne).1

theorem mem_comparedDistricts (db : Database) (w d : Int) :
    d ∈ comparedDistricts db w ↔
      (∃ o ∈ db.orders, o.o_w_id = w ∧ o.o_d_id = d) ∧
        ∃ l ∈ db.order_line, l.ol_w_id = w ∧ l.ol_d_id = d := by
  unfold comparedDistricts
  rw [List.mem_dedup, ← actualLines_pos_iff]
  simp only [List.mem_map, List.mem_filter, decide_eq_true_eq]
  constructor
  · rintro ⟨o, ⟨ho, hw, hpos⟩, rfl⟩
    exact ⟨⟨o, ho, hw, rfl⟩, hpos⟩
  · rintro ⟨⟨o, ho, hw, rfl⟩, hpos⟩
    exact ⟨o, ⟨ho, hw, hpos⟩, rfl⟩

theorem t1Cond4_eq (db : Database) (w : Int) :
    t1Cond4 db w w =
      (comparedDistricts db w).map fun d => (d, declaredLines db w d, actualLines db w d) := by
  unfold t1Cond4
  simp only
  rw [joined_eq, List.map_map]
  have hkeys : ((db.orders.filter fun o => o.o_w_id = w ∧ 0 < actualLines db w o.o_d_id).map
      ((fun r : OrdersRow × Int × Int => r.1.o_d_id) ∘
        fun o => (o, (o.o_d_id, actualLines db w o.o_d_id)))).dedup = comparedDistricts db w := rfl
  rw [hkeys]
  apply List.map_congr_left
  intro d hd
  have hd2 := (mem_comparedDistricts db w d).1 hd
  have hpos : 0 < actualLines db w d := (actualLines_pos_iff db w d).2 hd2.2
  have hg : ((db.orders.filter fun o => o.o_w_id = w ∧ 0 < actualLines db w o.o_d_id).map
      fun o => (o, (o.o_d_id, actualLines db w o.o_d_id))).filter (fun r => r.1.o_d_id = d) =
      (db.orders.filter fun o => o.o_w_id = w ∧ o.o_d_id = d).map
        fun o => (o, (o.o_d_id, actualLines db w o.o_d_id)) := by
    rw [List.filter_map, List.filter_filter]
    congr 1
    apply List.filter_congr
    intro o _
    by_cases ho : o.o_d_id = d
    · simp [ho, hpos]
    · simp [ho]
  rw [hg]
  simp only [List.map_map]
  refine Prod.ext rfl (Prod.ext ?_ ?_)
  · rfl
  · apply listMax_const
    · obtain ⟨o, ho, hw, hod⟩ := hd2.1
      intro hnil
      rw [List.map_eq_nil_iff, List.filter_eq_nil_iff] at hnil
      exact hnil o ho (by simp [hw, hod])
    · intro x hx
      simp only [List.mem_map, List.mem_filter, decide_eq_true_eq, Function.comp] at hx
      obtain ⟨o, ⟨_, _, hod⟩, rfl⟩ := hx
      rw [hod]

theorem checkCondition4_db (db : Database) (w : Int) (log : List Call) :
    (checkCondition4 (dbConn db) w log).1 =
      scanRows "max(no_o_id)-min(no_o_id)+1 - count(*)" w
        (((sqlCond4 db w w).map fun (x : Int) => (x : Rat)).map .ok) none := by
  simp only [checkCondition4, dbConn, List.map_map]
  rfl

theorem sqlCond4_eq (db : Database) (w : Int) :
    sqlCond4 db w w =
      [(((comparedDistricts db w).filter fun d =>
        declaredLines db w d ≠ actualLines db w d).length : Int)] := by
  unfold sqlCond4
  rw [t1Cond4_eq, List.filter_map, List.length_map]
  rfl

/-! ## C8 -/

/-- C8 (amended): for every warehouse and every content of its orders and
order-line rows, the statement of `checkCondition4` compares the districts
that have at least one order and at least one order-line row in the warehouse.
`checkCondition4` fails if and only if at least one of these districts has a
sum of `o_ol_cnt` over its orders that differs from its number of order-line
rows, and the value it surfaces is the number of such districts (zero means
pass). -/
theorem condition4_detection (db : Database) (w : Int) (log : List Call) :
    (comparedDistricts db w).Nodup ∧
    (∀ d, d ∈ comparedDistricts db w ↔
      (∃ o ∈ db.orders, o.o_w_id = w ∧ o.o_d_id = d) ∧
        ∃ l ∈ db.order_line, l.ol_w_id = w ∧ l.ol_d_id = d) ∧
    sqlCond4 db w w =
      [(((comparedDistricts db w).filter fun d =>
        declaredLines db w d ≠ actualLines db w d).length : Int)] ∧
    ((checkCondition4 (dbConn db) w log).1 ≠ none ↔
      ∃ d ∈ comparedDistricts db w, declaredLines db w d ≠ actualLines db w d) ∧
    (∀ err, (checkCondition4 (dbConn db) w log).1 = some err →
      err = .nonzero "max(no_o_id)-min(no_o_id)+1 - count(*)" w
        ((((comparedDistricts db w).filter fun d =>
          declaredLines db w d ≠ actualLines db w d).length : Int) : Rat)) := by
  have hrun : (checkCondition4 (dbConn db) w log).1 =
      scanRows "max(no_o_id)-min(no_o_id)+1 - count(*)" w
        [.ok ((((comparedDistricts db w).filter fun d =>
          declaredLines db w d ≠ actualLines db w d).length : Int) : Rat)] none := by
    rw [checkCondition4_db, sqlCond4_eq]
    rfl
  refine ⟨List.nodup_dedup _, mem_comparedDistricts db w, sqlCond4_eq db w, ?_, ?_⟩
  · rw [hrun]
    constructor
    · intro h
      by_contra hno
      push_neg at hno
      apply h
      have hnil : ((comparedDistricts db w).filter fun d =>
          declaredLines db w d ≠ actualLines db w d) = [] := by
        rw [List.filter_eq_nil_iff]
        intro d hd
        simp [hno d hd]
      rw [hnil]
      simp [scanRows]
    · rintro ⟨d, hd, hne⟩
      have hmem : d ∈ (comparedDistricts db w).filter fun d =>
          declaredLines db w d ≠ actualLines db w d := by
        rw [List.mem_filter]
        exact ⟨hd, by simpa using hne⟩
      have hpos : 0 < ((comparedDistricts db w).filter fun d =>
          declaredLines db w d ≠ actualLines db w d).length :=
        List.length_pos_of_mem hmem
      have hq : ((((comparedDistricts db w).filter fun d =>
          declaredLines db w d ≠ actualLines db w d).length : Int) : Rat) ≠ 0 := by
        have : (((comparedDistricts db w).filter fun d =>
          declaredLines db w d ≠ actualLines db w d).length : Int) ≠ 0 := by omega
        exact_mod_cast this
      simp only [scanRows, if_pos hq]
      exact Option.some_ne_none _
  · intro err herr
    rw [hrun] at herr
    simp only [scanRows] at herr
    split at herr
    · simp only [Option.some.injEq] at herr
      exact herr.symm
    · simp at herr

/-- Witness of C8: of the two compared districts of warehouse 1, district 1
(6 declared lines, 2 rows) mismatches; the check fails with the delta 1. -/
theorem condition4_detection_witness :
    comparedDistricts mismatchDb 1 = [1, 2] ∧
    sqlCond4 mismatchDb 1 1 =
      [(((comparedDistricts mismatchDb 1).filter fun d =>
        declaredLines mismatchDb 1 d ≠ actualLines mismatchDb 1 d).length : Int)] ∧
    (checkCondition4 (dbConn mismatchDb) 1 []).1 =
      some (.nonzero "max(no_o_id)-min(no_o_id)+1 - count(*)" 1 1) :=
  ⟨by decide, (condition4_detection mismatchDb 1 []).2.2.1, by decide⟩

/-- C8 as stated fails: district 1 of warehouse 1 has one order declaring five
lines and no order_line row, so its sum of `o_ol_cnt` (5) differs from its
number of order-line rows (0); the district has no row in the join of the
statement, the count of mismatching districts is 0 and the check passes. -/
theorem condition4_misses_orphans :
    declaredLines orphanDb 1 1 = 5 ∧ actualLines orphanDb 1 1 = 0 ∧
    declaredLines orphanDb 1 1 ≠ actualLines orphanDb 1 1 ∧
    (∃ o ∈ orphanDb.orders, o.o_w_id = 1 ∧ o.o_d_id = 1) ∧
    sqlCond4 orphanDb 1 1 = [0] ∧ (checkCondition4 (dbConn orphanDb) 1 []).1 = none := by
  refine ⟨by decide, by decide, by decide,
    ⟨⟨1, 1, 1, 5⟩, List.mem_cons_self _ _, by decide⟩, by decide, by decide⟩

/-! ## C9 -/

theorem flatMap_filter_of_nil {α β : Type} (p : α → Bool) (f : α → List β) :
    ∀ (l : List α), (∀ a ∈ l, p a = false → f a = []) →
      (l.filter p).flatMap f = l.flatMap f := by
  intro l
  induction l with
  | nil => intro _; rfl
  | cons a rest ih =>
    intro h
    have hrest := ih fun x hx => h x (List.mem_cons_of_mem _ hx)
    cases hp : p a with
    | true => rw [List.filter_cons_of_pos hp, List.flatMap_cons, List.flatMap_cons, hrest]
    | false =>
      have hnp : ¬ (p a = true) := by simp [hp]
      rw [List.filter_cons_of_neg hnp, List.flatMap_cons, hrest,
        h a (List.mem_cons_self _ _) hp, List.nil_append]

theorem joinCond2_dropDistrict (db : Database) (w0 d0 : Int)
    (hempty : newOrderIds db w0 d0 = []) (w : Int) :
    joinCond2 (dropDistrict db w0 d0) w = joinCond2 db w := by
  have hno : ∀ n ∈ db.new_order, ¬ (n.no_w_id = w0 ∧ n.no_d_id = d0) := by
    unfold newOrderIds at hempty
    rw [List.map_eq_nil_iff, List.filter_eq_nil_iff] at hempty
    intro n hn
    simpa using hempty n hn
  unfold joinCond2 dropDistrict
  simp only
  rw [flatMap_filter_of_nil]
  · apply List.flatMap_congr
    intro d _
    rw [flatMap_filter_of_nil]
    intro o _ ho
    simp only [decide_eq_false_iff_not, not_not] at ho
    rw [List.map_eq_nil_iff, List.filter_eq_nil_iff]
    intro n hn hp
    simp only [decide_eq_true_eq] at hp
    obtain ⟨h1, h2, h3, h4, _⟩ := hp
    exact hno n hn ⟨by rw [← h2, h1, ho.1], by rw [← h4, h3, ho.2]⟩
  · intro d _ hd
    simp only [decide_eq_false_iff_not, not_not] at hd
    rw [List.flatMap_eq_nil_iff]
    intro o _
    rw [List.map_eq_nil_iff, List.filter_eq_nil_iff]
    intro n hn hp
    simp only [decide_eq_true_eq] at hp
    obtain ⟨_, h2, _, h4, _⟩ := hp
    exact hno n hn ⟨by rw [← h2, hd.1], by rw [← h4, hd.2]⟩

/-- C9: a district of some warehouse with zero new-order rows contributes no
row to the join that `checkCondition2` aggregates: for every warehouse the
join, the rows of the statement and the outcome of the check are the same as
on the dataset with that district and its orders removed. -/
theorem empty_new_order_district (db : Database) (w0 d0 : Int)
    (hempty : newOrderIds db w0 d0 = []) (w : Int) (log : List Call) :
    (∀ r ∈ joinCond2 db w, ¬ (r.1.d_w_id = w0 ∧ r.1.d_id = d0)) ∧
    joinCond2 (dropDistrict db w0 d0) w = joinCond2 db w ∧
    sqlCond2 (dropDistrict db w0 d0) w = sqlCond2 db w ∧
    checkCondition2 (dbConn (dropDistrict db w0 d0)) w log =
      checkCondition2 (dbConn db) w log := by
  have hjoin := joinCond2_dropDistrict db w0 d0 hempty w
  have hsql : sqlCond2 (dropDistrict db w0 d0) w = sqlCond2 db w := by
    unfold sqlCond2
    rw [hjoin]
  refine ⟨?_, hjoin, hsql, ?_⟩
  · have hno : ∀ n ∈ db.new_order, ¬ (n.no_w_id = w0 ∧ n.no_d_id = d0) := by
      unfold newOrderIds at hempty
      rw [List.map_eq_nil_iff, List.filter_eq_nil_iff] at hempty
      intro n hn
      simpa using hempty n hn
    intro r hr hd
    unfold joinCond2 at hr
    simp only [List.mem_flatMap, List.mem_map, List.mem_filter, decide_eq_true_eq] at hr
    obtain ⟨d, _, o, _, n, ⟨hn, _, h2, _, h4, _⟩, rfl⟩ := hr
    exact hno n hn ⟨by rw [← h2]; exact hd.1, by rw [← h4]; exact hd.2⟩
  · simp only [checkCondition2, dbConn, hsql]

/-- Witness of C9: district 2 of warehouse 1 has an order and no new order;
the check on warehouse 1 passes with and without it. -/
theorem empty_new_order_district_witness :
    newOrderIds quietDb 1 2 = [] ∧
    checkCondition2 (dbConn (dropDistrict quietDb 1 2)) 1 [] =
      checkCondition2 (dbConn quietDb) 1 [] ∧
    (checkCondition2 (dbConn quietDb) 1 []).1 = none :=
  ⟨by decide, (empty_new_order_district quietDb 1 2 (by decide) 1 []).2.2.2, by decide⟩

end Tpcc
